import Mathlib

/-!
Verification development for the DataSpeak text-to-SQL agent pipeline
(`src-tauri/src/ai/...`).  The Rust sources are shallowly embedded as
executable Lean definitions: pure functions become Lean functions, the
external collaborators (text-generation service, database execution
service, connection lookup, wall clock) become explicit oracle
parameters, and fallible code returns `Except`.

Character-class conventions: the Rust `regex` crate is Unicode-aware by
default.  `\s` and Rust's `char::is_whitespace`/`str::trim` both use the
Unicode White_Space set, which is modelled in full below.  `\w`/`\b` and
`\d` are modelled on their ASCII subsets (`[A-Za-z0-9_]`, `[0-9]`), and
`(?i)` / `to_uppercase` / `eq_ignore_ascii_case` are modelled with ASCII
case folding; SQL keywords and the sanitizer's patterns are ASCII, so
the embedding agrees with the source on all ASCII inputs.
-/

namespace DataSpeak

/-- Model of the application error enum (`src/error.rs`); only the variants
reachable from the modelled components are included.  The `display` strings
follow the `thiserror` `#[error(...)]` attributes. -/
inductive AppError where
  | DatabaseError (msg : String)
  | QueryError (msg : String)
  | AgentError (msg : String)
  | SecurityError (msg : String)
  deriving DecidableEq

/-- Display form of an `AppError` (the `thiserror` derive of `Display`),
used wherever the Rust code formats an error with `{}` / `.to_string()`. -/
def AppError.display : AppError → String
  | .DatabaseError m => "Database error: " ++ m
  | .QueryError m => "Query error: " ++ m
  | .AgentError m => "Agent error: " ++ m
  | .SecurityError m => "Security error: " ++ m

/-- Unicode White_Space code points: the character class of Rust's
`char::is_whitespace` (hence `str::trim`) and of the regex crate's `\s`. -/
def isWhitespaceChar (c : Char) : Bool :=
  c == ' ' || c == '\t' || c == '\n' || c == '\x0b' || c == '\x0c' || c == '\r' ||
  c == '\u0085' || c == ' ' || c == ' ' ||
  (decide (0x2000 ≤ c.toNat) && decide (c.toNat ≤ 0x200a)) ||
  c == ' ' || c == ' ' || c == ' ' || c == ' ' || c == '　'

/-- ASCII word character, the `\w` class used by the regex `\b` boundaries. -/
def isWordChar (c : Char) : Bool := c.isAlphanum || c == '_'

/-- ASCII-case-insensitive character comparison, modelling `(?i)`. -/
def ciChar (a b : Char) : Bool := a.toUpper == b.toUpper

/-- Case-insensitively, is `kw` a prefix of `l`? -/
def ciStarts : List Char → List Char → Bool
  | [], _ => true
  | _ :: _, [] => false
  | k :: ks, c :: cs => ciChar k c && ciStarts ks cs

/-- Exact (case-sensitive) list prefix test. -/
def litStarts : List Char → List Char → Bool
  | [], _ => true
  | _ :: _, [] => false
  | k :: ks, c :: cs => k == c && litStarts ks cs

/-- Is the character at index `i` (if any) a word character? -/
def isWordAt (s : List Char) (i : Nat) : Bool :=
  match s[i]? with
  | some c => isWordChar c
  | none => false

/-- Case-insensitive keyword occurrence at index `i` with `\b` word
boundaries on both sides (keywords consist of word characters, so the
boundary conditions reduce to the neighbouring characters being
non-word or absent). -/
def kwBoundedAt (s : List Char) (i : Nat) (kw : List Char) : Bool :=
  ciStarts kw (s.drop i) && (i == 0 || !isWordAt s (i - 1)) && !isWordAt s (i + kw.length)

/-- The DML/DDL keywords of the first deny pattern in
`src/ai/sanitizer/validator.rs`. -/
def dmlKeywords : List (List Char) :=
  ["INSERT", "UPDATE", "DELETE", "DROP", "ALTER", "CREATE", "TRUNCATE",
   "REPLACE", "GRANT", "REVOKE"].map String.data

/-- Deny pattern 1, `(?i)\b(INSERT|...|REVOKE)\b`. -/
def denyDml (s : List Char) : Bool :=
  (List.range s.length).any fun i => dmlKeywords.any fun kw => kwBoundedAt s i kw

/-- No newline among the characters of `s` at indices `a ≤ k < b`
(the regex `.` does not match `\n`). -/
def noNewlineBetween (s : List Char) (a b : Nat) : Bool :=
  ((s.drop a).take (b - a)).all fun c => c != '\n'

/-- Deny pattern 2, `;.*;`: two semicolons with no newline strictly
between them. -/
def denyTwoSemis (s : List Char) : Bool :=
  (List.range s.length).any fun i => (List.range s.length).any fun j =>
    decide (i < j) && s.getD i ' ' == ';' && s.getD j ' ' == ';' &&
      noNewlineBetween s (i + 1) j

/-- Does `pat` occur as a contiguous subsequence of `s`? -/
def containsSeq (pat s : List Char) : Bool :=
  (List.range (s.length + 1)).any fun i => litStarts pat (s.drop i)

/-- Deny pattern 3, the `--` line-comment marker. -/
def denyLineComment (s : List Char) : Bool := containsSeq ['-', '-'] s

/-- Deny pattern 4, the `/*` block-comment marker. -/
def denyBlockComment (s : List Char) : Bool := containsSeq ['/', '*'] s

/-- Deny pattern 5, `(?i)\bUNION\b.*\bSELECT\b`: a word-bounded `UNION`
followed, with no intervening newline, by a word-bounded `SELECT`. -/
def denyUnionSelect (s : List Char) : Bool :=
  (List.range s.length).any fun i => kwBoundedAt s i "UNION".data &&
    ((List.range s.length).any fun j =>
      decide (i + 5 ≤ j) && kwBoundedAt s j "SELECT".data && noNewlineBetween s (i + 5) j)

/-- The (case-sensitive) keyword alternation of deny pattern 6. -/
def stackedKeywords : List (List Char) :=
  ["SELECT", "INSERT", "UPDATE", "DELETE", "DROP", "ALTER", "CREATE"].map String.data

/-- Deny pattern 6, `;\s*(SELECT|INSERT|UPDATE|DELETE|DROP|ALTER|CREATE)`:
a semicolon followed by optional whitespace and one of the (upper-case)
keywords.  Note the source regex has no `(?i)` flag here. -/
def denyStacked (s : List Char) : Bool :=
  (List.range s.length).any fun i => s.getD i ' ' == ';' &&
    stackedKeywords.any fun kw => litStarts kw ((s.drop (i + 1)).dropWhile isWhitespaceChar)

/-- The source strings of the six `DENY_PATTERNS` regexes, used in the
rejection message. -/
def denyPatternSources : List String :=
  ["(?i)\\b(INSERT|UPDATE|DELETE|DROP|ALTER|CREATE|TRUNCATE|REPLACE|GRANT|REVOKE)\\b",
   ";.*;",
   "--",
   "/\\*",
   "(?i)\\bUNION\\b.*\\bSELECT\\b",
   ";\\s*(SELECT|INSERT|UPDATE|DELETE|DROP|ALTER|CREATE)"]

/-- The six deny-pattern checks, in the order of `DENY_PATTERNS`. -/
def denyChecks (s : List Char) : List Bool :=
  [denyDml s, denyTwoSemis s, denyLineComment s, denyBlockComment s,
   denyUnionSelect s, denyStacked s]

/-- Index of the first deny pattern matching `s`, if any. -/
def findDeny (s : List Char) : Option Nat := (denyChecks s).findIdx? id

/-- Model of `str::trim`: drop Unicode whitespace from both ends. -/
def trimChars (l : List Char) : List Char :=
  ((l.dropWhile isWhitespaceChar).reverse.dropWhile isWhitespaceChar).reverse

/-- Model of the `while sanitized.ends_with(';') { sanitized.pop(); }` loop. -/
def stripTrailingSemis (l : List Char) : List Char :=
  (l.reverse.dropWhile fun c => c == ';').reverse

/-- Tail test for `\s+\d+`: at least one whitespace character followed by
at least one digit. -/
def spacesThenDigit (r : List Char) : Bool :=
  match r with
  | [] => false
  | c :: _ => isWhitespaceChar c &&
      (match r.dropWhile isWhitespaceChar with
       | d :: _ => d.isDigit
       | [] => false)

/-- The `HAS_LIMIT_RE` regex `(?i)\bLIMIT\s+\d+` (word boundary only on
the left of `LIMIT`). -/
def hasLimitRe (s : List Char) : Bool :=
  (List.range s.length).any fun i =>
    ciStarts "LIMIT".data (s.drop i) && (i == 0 || !isWordAt s (i - 1)) &&
      spacesThenDigit (s.drop (i + 5))

/-- Match of the capture regex `(?i)LIMIT\s+(\d+)` (no word boundary) at
index `i`: returns the total match length and the captured digit run. -/
def limitMatchAt (s : List Char) (i : Nat) : Option (Nat × List Char) :=
  if ciStarts "LIMIT".data (s.drop i) then
    let r := s.drop (i + 5)
    let sp := r.takeWhile isWhitespaceChar
    let ds := (r.dropWhile isWhitespaceChar).takeWhile Char.isDigit
    if !sp.isEmpty && !ds.isEmpty then some (5 + sp.length + ds.length, ds) else none
  else none

/-- Leftmost match of `(?i)LIMIT\s+(\d+)` in `s`: start index, match
length, captured digits. -/
def firstLimitMatch (s : List Char) : Option (Nat × Nat × List Char) :=
  (List.range s.length).findSome? fun i => (limitMatchAt s i).map fun m => (i, m.1, m.2)

/-- Numeric value of an ASCII digit run. -/
def digitsVal (ds : List Char) : Nat := ds.foldl (fun n c => n * 10 + (c.toNat - 48)) 0

/-- The LIMIT-enforcement step of `validate_sql`: if `HAS_LIMIT_RE` does
not match, append `" LIMIT 100"`; otherwise capture the first
`LIMIT\s+(\d+)`, parse it as an `i32` (failure, e.g. overflow above
`2147483647`, silently skips the cap), and if the value exceeds 100
replace the first `(?i)LIMIT\s+\d+` match with `LIMIT 100`. -/
def applyLimitPolicy (s : List Char) : List Char :=
  if hasLimitRe s then
    match firstLimitMatch s with
    | some (i, len, ds) =>
      if digitsVal ds ≤ 2147483647 then
        if 100 < digitsVal ds then s.take i ++ "LIMIT 100".data ++ s.drop (i + len) else s
      else s
    | none => s
  else s ++ " LIMIT 100".data

/-- Model of `validate_sql` (`src/ai/sanitizer/validator.rs`): trim, reject
empty input, require a case-insensitive `SELECT` prefix, reject on any
deny pattern, strip trailing semicolons, then enforce the LIMIT policy. -/
def validate_sql (query : String) : Except AppError String :=
  let trimmed := trimChars query.data
  if trimmed.isEmpty then .error (.SecurityError "Empty query")
  else if !ciStarts "SELECT".data trimmed then
    .error (.SecurityError "Only SELECT queries are allowed for AI agent")
  else
    match findDeny trimmed with
    | some idx =>
        .error (.SecurityError ("Forbidden SQL pattern detected (rule " ++
          toString (idx + 1) ++ "): " ++ denyPatternSources.getD idx ""))
    | none => .ok (String.mk (applyLimitPolicy (stripTrailingSemis trimmed)))

/-- Substring test on strings (Rust `str::contains`). -/
def containsSub (needle s : String) : Bool := containsSeq needle.data s.data

/-- Model of `validate_for_db_type`: dialect-specific escape-hatch checks. -/
def validate_for_db_type (query dbType : String) : Except AppError Unit :=
  if dbType == "postgres" then
    if containsSub "pg_" query || containsSub "pgcrypto" query then
      .error (.SecurityError "PostgreSQL system functions not allowed")
    else .ok ()
  else if dbType == "mysql" || dbType == "mariadb" then
    if containsSub "LOAD_FILE" query || containsSub "INTO OUTFILE" query then
      .error (.SecurityError "File operations not allowed")
    else .ok ()
  else .ok ()


end DataSpeak

deriving instance DecidableEq for Except

namespace DataSpeak

/-- C3: the LIMIT policy of `validate_sql` on the spec's three examples, and
the failing input: a `LIMIT` whose operand overflows `i32` (here
`2147483648 = 2^31`) is *not* rewritten to `LIMIT 100`, because the source
parses the captured digits with `parse::<i32>()` and silently skips the cap
when parsing fails.  This contradicts the claimed unconditional hard cap for
every `n > 100`. -/
theorem validate_sql_limit_cap_overflow_bug :
    validate_sql "SELECT * FROM t" = .ok "SELECT * FROM t LIMIT 100" ∧
    validate_sql "SELECT * FROM t LIMIT 500" = .ok "SELECT * FROM t LIMIT 100" ∧
    validate_sql "SELECT * FROM t LIMIT 25" = .ok "SELECT * FROM t LIMIT 25" ∧
    validate_sql "SELECT * FROM t LIMIT 2147483648" =
      .ok "SELECT * FROM t LIMIT 2147483648" := by
  refine ⟨by decide, by decide, by decide, by decide⟩

/-- C4: the rejection conditions of `validate_sql`.  The listed rejection
classes are exercised (DML keyword, empty input, non-SELECT, comments,
`UNION ... SELECT`, upper-case stacked statement), and in particular
`"SELECT * FROM users; DROP TABLE users"` is rejected.  But the claim's
universal statement is violated: the stacked-statement pattern
`;\s*(SELECT|...)` lacks the `(?i)` flag of the other keyword patterns, so
the semicolon-stacked two-statement input `"SELECT 1; select 2"` (lower-case
second statement, a single semicolon so `;.*;` cannot fire) is accepted. -/
theorem validate_sql_reject_rules_bug :
    validate_sql "SELECT 1; select 2" = .ok "SELECT 1; select 2 LIMIT 100" ∧
    validate_sql "SELECT * FROM users; DROP TABLE users" =
      .error (.SecurityError ("Forbidden SQL pattern detected (rule 1): " ++
        "(?i)\\b(INSERT|UPDATE|DELETE|DROP|ALTER|CREATE|TRUNCATE|REPLACE|GRANT|REVOKE)\\b")) ∧
    validate_sql "" = .error (.SecurityError "Empty query") ∧
    validate_sql "   " = .error (.SecurityError "Empty query") ∧
    validate_sql "SHOW TABLES" =
      .error (.SecurityError "Only SELECT queries are allowed for AI agent") ∧
    validate_sql "SELECT * FROM users -- comment" =
      .error (.SecurityError "Forbidden SQL pattern detected (rule 3): --") ∧
    validate_sql "SELECT * FROM users /* c */" =
      .error (.SecurityError "Forbidden SQL pattern detected (rule 4): /\\*") ∧
    validate_sql "SELECT * FROM users UNION SELECT * FROM passwords" =
      .error (.SecurityError ("Forbidden SQL pattern detected (rule 5): " ++
        "(?i)\\bUNION\\b.*\\bSELECT\\b")) ∧
    validate_sql "SELECT 1; SELECT 2" =
      .error (.SecurityError ("Forbidden SQL pattern detected (rule 6): " ++
        ";\\s*(SELECT|INSERT|UPDATE|DELETE|DROP|ALTER|CREATE)")) := by
  refine ⟨by decide, by decide, by decide, by decide, by decide, by decide, by decide,
    by decide, by decide⟩

/-- C9 counterexample: `validate_sql` is not idempotent.  The input
`"SELECT a UNION LIMIT\n500 SELECT b"` is accepted (the newline inside the
`LIMIT` clause prevents `UNION ... SELECT` from matching, since `.` does not
match newlines), but rewriting `LIMIT\n500` to `LIMIT 100` removes that
newline, so re-validating the accepted output is rejected by deny rule 5
rather than returning it unchanged. -/
theorem validate_sql_not_idempotent_cex :
    validate_sql "SELECT a UNION LIMIT\n500 SELECT b" =
      .ok "SELECT a UNION LIMIT 100 SELECT b" ∧
    validate_sql "SELECT a UNION LIMIT 100 SELECT b" =
      .error (.SecurityError ("Forbidden SQL pattern detected (rule 5): " ++
        "(?i)\\bUNION\\b.*\\bSELECT\\b")) := by
  refine ⟨by decide, by decide⟩

/-- A nonempty keyword can only be a case-insensitive prefix of a nonempty
list. -/
theorem ciStarts_ne_nil {k : Char} {ks l : List Char}
    (h : ciStarts (k :: ks) l = true) : l ≠ [] := by
  cases l with
  | nil => simp [ciStarts] at h
  | cons c cs => simp

/-- Extending the list on the right preserves a case-insensitive prefix. -/
theorem ciStarts_append_right {kw u w : List Char}
    (h : ciStarts kw u = true) : ciStarts kw (u ++ w) = true := by
  induction kw generalizing u with
  | nil => rfl
  | cons k ks ih =>
    cases u with
    | nil => simp [ciStarts] at h
    | cons c cs =>
      simp only [List.cons_append, ciStarts, Bool.and_eq_true] at h ⊢
      exact ⟨h.1, ih h.2⟩

/-- If a keyword containing no character folding to `;` is a prefix of
`u ++ v` where `v` consists only of semicolons, it is already a prefix of
`u`. -/
theorem ciStarts_of_append_semis {kw u v : List Char}
    (hk : ∀ k ∈ kw, k.toUpper ≠ ';')
    (hv : ∀ c ∈ v, c = ';')
    (h : ciStarts kw (u ++ v) = true) : ciStarts kw u = true := by
  induction kw generalizing u with
  | nil => rfl
  | cons k ks ih =>
    cases u with
    | nil =>
      exfalso
      cases v with
      | nil => simp [ciStarts] at h
      | cons c cs =>
        simp only [List.nil_append, ciStarts, ciChar, Bool.and_eq_true, beq_iff_eq] at h
        have hc : c = ';' := hv c (by simp)
        have hk' : k.toUpper ≠ ';' := hk k (by simp)
        rw [hc] at h
        exact hk' (h.1.trans (by decide))
    | cons c cs =>
      simp only [List.cons_append, ciStarts, Bool.and_eq_true] at h ⊢
      exact ⟨h.1, ih (fun x hx => hk x (List.mem_cons_of_mem _ hx)) h.2⟩

/-- A case-insensitive prefix survives truncation at or beyond the keyword
length followed by an arbitrary extension. -/
theorem ciStarts_take_append {kw u w : List Char} {i : Nat}
    (hlen : kw.length ≤ i) (h : ciStarts kw u = true) :
    ciStarts kw (u.take i ++ w) = true := by
  induction kw generalizing u i with
  | nil => rfl
  | cons k ks ih =>
    cases u with
    | nil => simp [ciStarts] at h
    | cons c cs =>
      cases i with
      | zero => simp at hlen
      | succ n =>
        simp only [List.take_succ_cons, List.cons_append, ciStarts, Bool.and_eq_true] at h ⊢
        refine ⟨h.1, ih ?_ h.2⟩
        simpa using Nat.le_of_succ_le_succ (by simpa using hlen)

/-- Decomposition of a list into its semicolon-stripped prefix and a
trailing run of semicolons. -/
theorem strip_decomp (l : List Char) :
    ∃ v, l = stripTrailingSemis l ++ v ∧ ∀ c ∈ v, c = ';' := by
  refine ⟨(l.reverse.takeWhile (fun c => c == ';')).reverse, ?_, ?_⟩
  · conv_lhs => rw [← l.reverse_reverse,
      ← List.takeWhile_append_dropWhile (fun c => c == ';') l.reverse]
    rw [List.reverse_append]
    rfl
  · intro c hc
    rw [List.mem_reverse] at hc
    have := List.mem_takeWhile_imp hc
    simpa using this

/-- The semicolon-stripped prefix does not end with a semicolon. -/
theorem strip_getLast_ne_semi (l : List Char) {a : Char}
    (h : (stripTrailingSemis l).getLast? = some a) : a ≠ ';' := by
  unfold stripTrailingSemis at h
  rw [List.getLast?_eq_head?_reverse, List.reverse_reverse] at h
  have hd := List.head?_dropWhile_not (fun c => c == ';') l.reverse
  rw [h] at hd
  simpa using hd

/-- Stripping trailing semicolons is a no-op on a list not ending in a
semicolon. -/
theorem strip_noop_of_getLast {l : List Char}
    (h : ∀ a, l.getLast? = some a → a ≠ ';') : stripTrailingSemis l = l := by
  unfold stripTrailingSemis
  cases hr : l.reverse with
  | nil =>
    have : l = [] := List.reverse_eq_nil_iff.mp hr
    simp [this]
  | cons a r =>
    have ha : a ≠ ';' := by
      apply h
      rw [List.getLast?_eq_head?_reverse, hr]
      rfl
    rw [List.dropWhile_cons, if_neg (by simp [ha]), ← hr, List.reverse_reverse]

/-- The last element of a suffix obtained by `drop` is the last element of
the whole list. -/
theorem getLast?_drop_eq {l : List Char} {n : Nat} {a : Char}
    (h : (l.drop n).getLast? = some a) : l.getLast? = some a := by
  have hne : l.drop n ≠ [] := by
    intro he
    rw [he] at h
    simp at h
  calc l.getLast? = (l.take n ++ l.drop n).getLast? := by rw [List.take_append_drop]
    _ = (l.drop n).getLast? := List.getLast?_append_of_ne_nil _ hne
    _ = some a := h

/-- The LIMIT-policy output never ends with a semicolon, provided its input
does not. -/
theorem applyLimitPolicy_getLast_ne_semi {u : List Char}
    (hu : ∀ a, u.getLast? = some a → a ≠ ';') :
    ∀ a, (applyLimitPolicy u).getLast? = some a → a ≠ ';' := by
  intro a ha
  unfold applyLimitPolicy at ha
  split at ha
  · split at ha
    · rename_i i len ds heq
      split at ha
      · split at ha
        · rename_i h1 h2
          rw [List.append_assoc] at ha
          cases hd : u.drop (i + len) with
          | nil =>
            rw [hd, List.append_nil,
              List.getLast?_append_of_ne_nil _ (by decide : "LIMIT 100".data ≠ [])] at ha
            have hx : ("LIMIT 100".data).getLast? = some '0' := by decide
            rw [hx] at ha
            cases ha
            decide
          | cons d ds' =>
            rw [hd, List.getLast?_append_of_ne_nil _
                (by simp : ("LIMIT 100".data ++ d :: ds') ≠ []),
              List.getLast?_append_of_ne_nil _ (by simp : d :: ds' ≠ [])] at ha
            refine hu a (getLast?_drop_eq (n := i + len) ?_)
            rw [hd]
            exact ha
        · exact hu a ha
      · exact hu a ha
    · exact hu a ha
  · rw [List.getLast?_append_of_ne_nil _ (by decide : " LIMIT 100".data ≠ [])] at ha
    have hx : (" LIMIT 100".data).getLast? = some '0' := by decide
    rw [hx] at ha
    cases ha
    decide

/-- Shape of a list starting, case-insensitively, with `SELECT`. -/
theorem ciStarts_select_shape {u : List Char}
    (h : ciStarts "SELECT".data u = true) :
    ∃ c0 c1 c2 c3 c4 c5 rest, u = c0 :: c1 :: c2 :: c3 :: c4 :: c5 :: rest ∧
      c0.toUpper = 'S' ∧ c1.toUpper = 'E' ∧ c2.toUpper = 'L' ∧
      c3.toUpper = 'E' ∧ c4.toUpper = 'C' ∧ c5.toUpper = 'T' := by
  rw [show "SELECT".data = ['S', 'E', 'L', 'E', 'C', 'T'] from rfl] at h
  cases u with
  | nil => simp [ciStarts] at h
  | cons c0 u0 => cases u0 with
  | nil => simp [ciStarts] at h
  | cons c1 u1 => cases u1 with
  | nil => simp [ciStarts] at h
  | cons c2 u2 => cases u2 with
  | nil => simp [ciStarts] at h
  | cons c3 u3 => cases u3 with
  | nil => simp [ciStarts] at h
  | cons c4 u4 => cases u4 with
  | nil => simp [ciStarts] at h
  | cons c5 rest =>
    simp only [ciStarts, ciChar, Bool.and_eq_true, beq_iff_eq] at h
    obtain ⟨h0, h1, h2, h3, h4, h5, -⟩ := h
    exact ⟨c0, c1, c2, c3, c4, c5, rest, rfl,
      h0.symm.trans (by decide), h1.symm.trans (by decide), h2.symm.trans (by decide),
      h3.symm.trans (by decide), h4.symm.trans (by decide), h5.symm.trans (by decide)⟩

/-- In a statement starting with `SELECT`, a `(?i)LIMIT\s+\d+` match cannot
begin inside the leading keyword: its start index is at least 6. -/
theorem limit_start_ge_six {u : List Char} {i : Nat} {m : Nat × List Char}
    (hs : ciStarts "SELECT".data u = true)
    (hm : limitMatchAt u i = some m) : 6 ≤ i := by
  have hL : ciStarts "LIMIT".data (u.drop i) = true := by
    unfold limitMatchAt at hm
    by_cases hc : ciStarts "LIMIT".data (u.drop i) = true
    · exact hc
    · rw [if_neg hc] at hm
      exact absurd hm (by simp)
  rw [show "LIMIT".data = ['L', 'I', 'M', 'I', 'T'] from rfl] at hL
  obtain ⟨c0, c1, c2, c3, c4, c5, rest, rfl, h0, h1, h2, h3, h4, h5⟩ :=
    ciStarts_select_shape hs
  by_contra hlt
  push_neg at hlt
  match i, hlt with
  | 0, _ =>
    simp only [List.drop_zero, ciStarts, ciChar, Bool.and_eq_true, beq_iff_eq] at hL
    rw [h0] at hL
    exact absurd hL.1 (by decide)
  | 1, _ =>
    simp only [List.drop_succ_cons, List.drop_zero, ciStarts, ciChar,
      Bool.and_eq_true, beq_iff_eq] at hL
    rw [h1] at hL
    exact absurd hL.1 (by decide)
  | 2, _ =>
    simp only [List.drop_succ_cons, List.drop_zero, ciStarts, ciChar,
      Bool.and_eq_true, beq_iff_eq] at hL
    rw [h2, h3] at hL
    exact absurd hL.2.1 (by decide)
  | 3, _ =>
    simp only [List.drop_succ_cons, List.drop_zero, ciStarts, ciChar,
      Bool.and_eq_true, beq_iff_eq] at hL
    rw [h3] at hL
    exact absurd hL.1 (by decide)
  | 4, _ =>
    simp only [List.drop_succ_cons, List.drop_zero, ciStarts, ciChar,
      Bool.and_eq_true, beq_iff_eq] at hL
    rw [h4] at hL
    exact absurd hL.1 (by decide)
  | 5, _ =>
    simp only [List.drop_succ_cons, List.drop_zero, ciStarts, ciChar,
      Bool.and_eq_true, beq_iff_eq] at hL
    rw [h5] at hL
    exact absurd hL.1 (by decide)

/-- The LIMIT policy preserves a leading case-insensitive `SELECT`. -/
theorem applyLimitPolicy_keeps_select {u : List Char}
    (h : ciStarts "SELECT".data u = true) :
    ciStarts "SELECT".data (applyLimitPolicy u) = true := by
  unfold applyLimitPolicy
  split
  · split
    · rename_i i len ds heq
      have hge : 6 ≤ i := by
        obtain ⟨j, hj, hjm⟩ := List.exists_of_findSome?_eq_some heq
        rw [Option.map_eq_some'] at hjm
        obtain ⟨a, ha, hab⟩ := hjm
        have hji : j = i := congrArg Prod.fst hab
        subst hji
        exact limit_start_ge_six h ha
      split
      · split
        · rw [List.append_assoc]
          exact ciStarts_take_append (by simpa using hge) h
        · exact h
      · exact h
    · exact h
  · exact ciStarts_append_right h

/-- C9 (amended): re-validating an accepted output `s` of `validate_sql` is
a no-op provided `s` is fully trimmed, itself passes the deny-pattern
checks, and the LIMIT policy leaves it unchanged.  (The unconditional claim
fails: a LIMIT rewrite can delete the newline separating `UNION` from
`SELECT` so that re-validation rejects the output, semicolon stripping can
leave trailing whitespace that re-validation trims away, and a `LIMIT`
occurrence without a left word boundary can make re-validation append or
rewrite again.)  The leading-`SELECT` requirement and the absence of a
trailing semicolon are derived, not assumed. -/
theorem validate_sql_revalidate_noop (x s : String)
    (hx : validate_sql x = .ok s)
    (htrim : trimChars s.data = s.data)
    (hdeny : findDeny s.data = none)
    (hlim : applyLimitPolicy s.data = s.data) :
    validate_sql s = .ok s := by
  simp only [validate_sql] at hx
  split at hx
  · exact absurd hx (by simp)
  · rename_i hcond
    split at hx
    · exact absurd hx (by simp)
    · rename_i hsel
      split at hx
      · exact absurd hx (by simp)
      · rename_i heq
        have hsdata : s.data = applyLimitPolicy (stripTrailingSemis (trimChars x.data)) := by
          have := congrArg String.data (Except.ok.inj hx)
          exact this.symm
        have hsel' : ciStarts "SELECT".data (trimChars x.data) = true := by
          cases hb : ciStarts "SELECT".data (trimChars x.data) with
          | false =>
            exfalso
            apply hsel
            rw [show (['S', 'E', 'L', 'E', 'C', 'T'] : List Char) = "SELECT".data from rfl, hb]
            rfl
          | true => rfl
        obtain ⟨v, hv, hvs⟩ := strip_decomp (trimChars x.data)
        have hu_sel : ciStarts "SELECT".data (stripTrailingSemis (trimChars x.data)) = true := by
          refine ciStarts_of_append_semis (by decide) hvs ?_
          rw [← hv]
          exact hsel'
        have hs_sel : ciStarts "SELECT".data s.data = true := by
          rw [hsdata]
          exact applyLimitPolicy_keeps_select hu_sel
        have hs_last : ∀ a, s.data.getLast? = some a → a ≠ ';' := by
          rw [hsdata]
          exact applyLimitPolicy_getLast_ne_semi
            (fun a ha => strip_getLast_ne_semi (trimChars x.data) ha)
        have hne : s.data ≠ [] := by
          have hs2 := hs_sel
          rw [show "SELECT".data = 'S' :: "ELECT".data from rfl] at hs2
          exact ciStarts_ne_nil hs2
        have hslit : ciStarts ['S', 'E', 'L', 'E', 'C', 'T'] s.data = true := hs_sel
        simp only [validate_sql, htrim]
        rw [if_neg (by simp [List.isEmpty_iff, hne]), if_neg (by simp [hslit]), hdeny,
          strip_noop_of_getLast hs_last, hlim]

/-- Witness for the amended C9 theorem at a concrete sanitized output. -/
theorem validate_sql_revalidate_noop_witness :
    validate_sql "SELECT * FROM t LIMIT 100" = .ok "SELECT * FROM t LIMIT 100" :=
  validate_sql_revalidate_noop "SELECT * FROM t" "SELECT * FROM t LIMIT 100"
    (by decide) (by decide) (by decide) (by decide)

/-- Result of a database query execution (`src/db/query.rs`); of its fields
only those consumed by the modelled agent code are included, and a row's
JSON values are abstracted as their display strings (no claim concerns
value rendering).  `rows` keeps the (name, value) pairs in map order. -/
structure QueryResult where
  columns : List String
  rows : List (List (String × String))
  rowCount : Nat
  deriving DecidableEq

/-- One record of a refinement attempt (`src/ai/agent/refiner.rs`). -/
structure RefinementAttempt where
  sql : String
  success : Bool
  error : Option String
  deriving DecidableEq

/-- Final result of the Refiner agent (`RefinerResult` in `refiner.rs`). -/
structure RefinerResult where
  finalSql : String
  result : QueryResult
  attempts : Nat
  deriving DecidableEq

/-- The `max_attempts` value installed by `RefinerAgent::new`. -/
def refinerDefaultMaxAttempts : Nat := 3

/-- The loop of `RefinerAgent::refine_and_execute`.  `fuel` counts the
remaining `attempts < max_attempts` guard checks (initially `maxAttempts`,
so `fuel = 0` is the loop's fall-through, whose "exhausted" error is only
reachable when `max_attempts = 0`).  `att` is the `attempts` counter before
the increment at the top of the body.  `tryEx` abstracts `try_execute`
(sanitize + dialect check + database execution) and `correct` abstracts
`generate_corrected_sql` applied to the failed SQL, the error display
string and the updated history (the fixed question/schema/dialect context
is folded into the oracle); an error from `correct` propagates, as with
`?` in the source. -/
def refineGo (maxAttempts : Nat) (tryEx : String → Except AppError QueryResult)
    (correct : String → String → List RefinementAttempt → Except AppError String) :
    Nat → String → List RefinementAttempt → Nat → Except AppError RefinerResult
  | 0, _, _, _ =>
    .error (.AgentError ("Query refinement exhausted " ++ toString maxAttempts ++ " attempts"))
  | fuel + 1, cur, hist, att =>
    match tryEx cur with
    | .ok r => .ok ⟨cur, r, att + 1⟩
    | .error e =>
      let hist2 := hist ++ [⟨cur, false, some e.display⟩]
      if maxAttempts ≤ att + 1 then
        .error (.AgentError ("Query refinement failed after " ++ toString (att + 1) ++
          " attempts. Last error: " ++ e.display))
      else
        match correct cur e.display hist2 with
        | .error ce => .error ce
        | .ok next => refineGo maxAttempts tryEx correct fuel next hist2 (att + 1)

/-- Model of `refine_and_execute`: run the loop from an empty history and a
zero attempt counter. -/
def refine_and_execute (maxAttempts : Nat)
    (tryEx : String → Except AppError QueryResult)
    (correct : String → String → List RefinementAttempt → Except AppError String)
    (sql : String) : Except AppError RefinerResult :=
  refineGo maxAttempts tryEx correct maxAttempts sql [] 0

/-- Instrumented variant of `refineGo` that additionally returns the list
of SQL texts handed to `tryEx`, in execution order; it is the same
computation (see `refineGoT_fst`) with a ghost trace. -/
def refineGoT (maxAttempts : Nat) (tryEx : String → Except AppError QueryResult)
    (correct : String → String → List RefinementAttempt → Except AppError String) :
    Nat → String → List RefinementAttempt → Nat →
      Except AppError RefinerResult × List String
  | 0, _, _, _ =>
    (.error (.AgentError ("Query refinement exhausted " ++ toString maxAttempts ++ " attempts")), [])
  | fuel + 1, cur, hist, att =>
    match tryEx cur with
    | .ok r => (.ok ⟨cur, r, att + 1⟩, [cur])
    | .error e =>
      let hist2 := hist ++ [⟨cur, false, some e.display⟩]
      if maxAttempts ≤ att + 1 then
        (.error (.AgentError ("Query refinement failed after " ++ toString (att + 1) ++
          " attempts. Last error: " ++ e.display)), [cur])
      else
        match correct cur e.display hist2 with
        | .error ce => (.error ce, [cur])
        | .ok next =>
          let r2 := refineGoT maxAttempts tryEx correct fuel next hist2 (att + 1)
          (r2.1, cur :: r2.2)

/-- Traced run of `refine_and_execute`. -/
def refineTrace (maxAttempts : Nat)
    (tryEx : String → Except AppError QueryResult)
    (correct : String → String → List RefinementAttempt → Except AppError String)
    (sql : String) : Except AppError RefinerResult × List String :=
  refineGoT maxAttempts tryEx correct maxAttempts sql [] 0

/-- The instrumented loop computes the same result as the source loop. -/
theorem refineGoT_fst (maxAttempts : Nat)
    (tryEx : String → Except AppError QueryResult)
    (correct : String → String → List RefinementAttempt → Except AppError String) :
    ∀ (fuel : Nat) (cur : String) (hist : List RefinementAttempt) (att : Nat),
      (refineGoT maxAttempts tryEx correct fuel cur hist att).1 =
        refineGo maxAttempts tryEx correct fuel cur hist att := by
  intro fuel
  induction fuel with
  | zero => intro cur hist att; rfl
  | succ f ih =>
    intro cur hist att
    simp only [refineGoT, refineGo]
    cases tryEx cur with
    | ok r => rfl
    | error e =>
      by_cases hm : maxAttempts ≤ att + 1
      · simp only [if_pos hm]
      · simp only [if_neg hm]
        cases correct cur e.display (hist ++ [⟨cur, false, some e.display⟩]) with
        | error ce => rfl
        | ok next => exact ih next _ (att + 1)

/-- One-step unfolding of `refineGoT` when the try succeeds. -/
theorem refineGoT_succ_ok {maxAttempts : Nat}
    {tryEx : String → Except AppError QueryResult}
    {correct : String → String → List RefinementAttempt → Except AppError String}
    {fuel att : Nat} {cur : String} {hist : List RefinementAttempt} {r : QueryResult}
    (he : tryEx cur = .ok r) :
    refineGoT maxAttempts tryEx correct (fuel + 1) cur hist att =
      (.ok ⟨cur, r, att + 1⟩, [cur]) := by
  simp only [refineGoT, he]

/-- One-step unfolding of `refineGoT` when the try fails on the last
allowed attempt. -/
theorem refineGoT_succ_exhaust {maxAttempts : Nat}
    {tryEx : String → Except AppError QueryResult}
    {correct : String → String → List RefinementAttempt → Except AppError String}
    {fuel att : Nat} {cur : String} {hist : List RefinementAttempt} {e : AppError}
    (he : tryEx cur = .error e) (hm : maxAttempts ≤ att + 1) :
    refineGoT maxAttempts tryEx correct (fuel + 1) cur hist att =
      (.error (.AgentError ("Query refinement failed after " ++ toString (att + 1) ++
        " attempts. Last error: " ++ e.display)), [cur]) := by
  simp only [refineGoT, he, if_pos hm]

/-- One-step unfolding of `refineGoT` when the try fails, attempts remain,
and the correction call fails. -/
theorem refineGoT_succ_correrr {maxAttempts : Nat}
    {tryEx : String → Except AppError QueryResult}
    {correct : String → String → List RefinementAttempt → Except AppError String}
    {fuel att : Nat} {cur : String} {hist : List RefinementAttempt} {e ce : AppError}
    (he : tryEx cur = .error e) (hm : ¬maxAttempts ≤ att + 1)
    (hc : correct cur e.display (hist ++ [⟨cur, false, some e.display⟩]) = .error ce) :
    refineGoT maxAttempts tryEx correct (fuel + 1) cur hist att = (.error ce, [cur]) := by
  simp only [refineGoT, he, if_neg hm, hc]

/-- One-step unfolding of `refineGoT` when the try fails, attempts remain,
and the correction call succeeds. -/
theorem refineGoT_succ_recurse {maxAttempts : Nat}
    {tryEx : String → Except AppError QueryResult}
    {correct : String → String → List RefinementAttempt → Except AppError String}
    {fuel att : Nat} {cur next : String} {hist : List RefinementAttempt} {e : AppError}
    (he : tryEx cur = .error e) (hm : ¬maxAttempts ≤ att + 1)
    (hc : correct cur e.display (hist ++ [⟨cur, false, some e.display⟩]) = .ok next) :
    refineGoT maxAttempts tryEx correct (fuel + 1) cur hist att =
      ((refineGoT maxAttempts tryEx correct fuel next
          (hist ++ [⟨cur, false, some e.display⟩]) (att + 1)).1,
        cur :: (refineGoT maxAttempts tryEx correct fuel next
          (hist ++ [⟨cur, false, some e.display⟩]) (att + 1)).2) := by
  simp only [refineGoT, he, if_neg hm, hc]

/-- Loop invariant for the always-failing case: with `fuel` guard checks
left and `att + fuel = maxAttempts`, the loop performs exactly `fuel`
further execution tries and ends in the budget-exhaustion error quoting
`maxAttempts` and the last observed error. -/
theorem refineGoT_fail (maxAttempts : Nat)
    (tryEx : String → Except AppError QueryResult)
    (correct : String → String → List RefinementAttempt → Except AppError String)
    (hfail : ∀ q, ∃ e, tryEx q = .error e)
    (hcorr : ∀ q e h, ∃ q2, correct q e h = .ok q2) :
    ∀ (fuel : Nat) (att : Nat) (cur : String) (hist : List RefinementAttempt),
      att + fuel = maxAttempts → 0 < fuel →
      ∃ (tried : List String) (e : AppError),
        refineGoT maxAttempts tryEx correct fuel cur hist att =
          (.error (.AgentError ("Query refinement failed after " ++ toString maxAttempts ++
            " attempts. Last error: " ++ e.display)), tried) ∧
        tried.length = fuel ∧ tried.head? = some cur ∧
        ∃ last, tried.getLast? = some last ∧ tryEx last = .error e := by
  intro fuel
  induction fuel with
  | zero => intro att cur hist _ h0; exact absurd h0 (by omega)
  | succ f ih =>
    intro att cur hist hsum _
    obtain ⟨e0, he0⟩ := hfail cur
    by_cases hm : maxAttempts ≤ att + 1
    · have hf0 : f = 0 := by omega
      have hmax : att + 1 = maxAttempts := by omega
      refine ⟨[cur], e0, ?_, by simp [hf0], by simp, cur, by simp, he0⟩
      rw [refineGoT_succ_exhaust he0 hm, hmax]
    · obtain ⟨next, hnext⟩ :=
        hcorr cur e0.display (hist ++ [⟨cur, false, some e0.display⟩])
      obtain ⟨tried2, e, heq2, hlen2, hhead2, last, hlast2, htry2⟩ :=
        ih (att + 1) next (hist ++ [⟨cur, false, some e0.display⟩]) (by omega) (by omega)
      have hne2 : tried2 ≠ [] := by
        intro hnil
        rw [hnil] at hlen2
        simp at hlen2
        omega
      refine ⟨cur :: tried2, e, ?_, by simp [hlen2], by simp, last, ?_, htry2⟩
      · rw [refineGoT_succ_recurse he0 hm hnext, heq2]
      · rw [show cur :: tried2 = [cur] ++ tried2 from rfl,
          List.getLast?_append_of_ne_nil _ hne2]
        exact hlast2

/-- Loop invariant for the success case: if the loop returns `ok rr`, the
final SQL is the last tried one, it executed successfully, every earlier
tried SQL failed, and the reported attempt count is exactly the number of
execution tries performed. -/
theorem refineGoT_ok (maxAttempts : Nat)
    (tryEx : String → Except AppError QueryResult)
    (correct : String → String → List RefinementAttempt → Except AppError String) :
    ∀ (fuel : Nat) (att : Nat) (cur : String) (hist : List RefinementAttempt)
      (rr : RefinerResult) (tried : List String),
      refineGoT maxAttempts tryEx correct fuel cur hist att = (.ok rr, tried) →
      tryEx rr.finalSql = .ok rr.result ∧ rr.attempts = att + tried.length ∧
      att < rr.attempts ∧ rr.attempts ≤ att + fuel ∧
      tried.getLast? = some rr.finalSql ∧
      ∀ q ∈ tried.dropLast, ∃ e2, tryEx q = .error e2 := by
  intro fuel
  induction fuel with
  | zero =>
    intro att cur hist rr tried h
    simp [refineGoT] at h
  | succ f ih =>
    intro att cur hist rr tried h
    cases htry : tryEx cur with
    | ok r =>
      rw [refineGoT_succ_ok htry] at h
      have h1 : Except.ok (⟨cur, r, att + 1⟩ : RefinerResult) = Except.ok rr :=
        congrArg Prod.fst h
      have h2 : [cur] = tried := congrArg Prod.snd h
      have hrr : rr = ⟨cur, r, att + 1⟩ := (Except.ok.inj h1).symm
      subst hrr
      subst h2
      exact ⟨htry, by simp, Nat.lt_succ_self att,
        (by omega : att + 1 ≤ att + (f + 1)), by simp, by simp⟩
    | error e =>
      by_cases hm : maxAttempts ≤ att + 1
      · rw [refineGoT_succ_exhaust htry hm] at h
        exact absurd (congrArg Prod.fst h) (by simp)
      · cases hc : correct cur e.display (hist ++ [⟨cur, false, some e.display⟩]) with
        | error ce =>
          rw [refineGoT_succ_correrr htry hm hc] at h
          exact absurd (congrArg Prod.fst h) (by simp)
        | ok next =>
          rw [refineGoT_succ_recurse htry hm hc] at h
          have h1 := congrArg Prod.fst h
          have h2 := congrArg Prod.snd h
          simp only at h1 h2
          cases hr2 : refineGoT maxAttempts tryEx correct f next
              (hist ++ [⟨cur, false, some e.display⟩]) (att + 1) with
          | mk res2 tr2 =>
            rw [hr2] at h1 h2
            simp only at h1 h2
            obtain ⟨hex, hatt, hlt, hle, hlast, hprev⟩ :=
              ih (att + 1) next (hist ++ [⟨cur, false, some e.display⟩]) rr tr2
                (by rw [hr2, h1])
            have htr2ne : tr2 ≠ [] := by
              intro hnil
              rw [hnil] at hatt
              simp at hatt
              omega
            subst h2
            refine ⟨hex, ?_, by omega, by omega, ?_, ?_⟩
            · simp only [List.length_cons]
              omega
            · rw [show cur :: tr2 = [cur] ++ tr2 from rfl,
                List.getLast?_append_of_ne_nil _ htr2ne]
              exact hlast
            · intro q hq
              cases tr2 with
              | nil => exact absurd rfl htr2ne
              | cons t0 trest =>
                rw [List.dropLast_cons₂] at hq
                rcases List.mem_cons.mp hq with hq1 | hq2
                · exact ⟨e, by rw [hq1]; exact htry⟩
                · exact hprev q hq2

/-- C2: Refiner attempt budget.  Part 1: the instrumented run computes
exactly `refine_and_execute`.  Part 2: if every execution try fails while
all correction calls succeed, `refine_and_execute` performs exactly
`maxAttempts` execution tries (the trace has length `maxAttempts`,
starting from the given SQL) and returns the fatal error whose text
quotes the attempt count and the display of the last observed execution
error — never more, never fewer tries.  Part 3: when the run returns
`ok rr`, the successful try is the last one - `rr.attempts` equals the
number of tries, every earlier tried SQL failed, no try follows a
success, and `rr.finalSql`/`rr.result` are the succeeding SQL and its
result.  Part 4: the default budget installed by `RefinerAgent::new`
is 3. -/
theorem refiner_attempt_budget :
    (∀ (maxA : Nat) (tryEx : String → Except AppError QueryResult)
      (correct : String → String → List RefinementAttempt → Except AppError String)
      (sql : String),
      refine_and_execute maxA tryEx correct sql = (refineTrace maxA tryEx correct sql).1) ∧
    (∀ (maxA : Nat) (tryEx : String → Except AppError QueryResult)
      (correct : String → String → List RefinementAttempt → Except AppError String)
      (sql : String), 0 < maxA →
      (∀ q, ∃ e, tryEx q = .error e) →
      (∀ q e h, ∃ q2, correct q e h = .ok q2) →
      ∃ (tried : List String) (e : AppError),
        refineTrace maxA tryEx correct sql =
          (.error (.AgentError ("Query refinement failed after " ++ toString maxA ++
            " attempts. Last error: " ++ e.display)), tried) ∧
        tried.length = maxA ∧ tried.head? = some sql ∧
        ∃ last, tried.getLast? = some last ∧ tryEx last = .error e) ∧
    (∀ (maxA : Nat) (tryEx : String → Except AppError QueryResult)
      (correct : String → String → List RefinementAttempt → Except AppError String)
      (sql : String) (rr : RefinerResult) (tried : List String),
      refineTrace maxA tryEx correct sql = (.ok rr, tried) →
      tryEx rr.finalSql = .ok rr.result ∧ rr.attempts = tried.length ∧
      1 ≤ rr.attempts ∧ rr.attempts ≤ maxA ∧
      tried.getLast? = some rr.finalSql ∧
      ∀ q ∈ tried.dropLast, ∃ e2, tryEx q = .error e2) ∧
    refinerDefaultMaxAttempts = 3 := by
  refine ⟨?_, ?_, ?_, rfl⟩
  · intro maxA tryEx correct sql
    exact (refineGoT_fst maxA tryEx correct maxA sql [] 0).symm
  · intro maxA tryEx correct sql hpos hfail hcorr
    exact refineGoT_fail maxA tryEx correct hfail hcorr maxA 0 sql [] (by omega) hpos
  · intro maxA tryEx correct sql rr tried h
    obtain ⟨hex, hatt, hlt, hle, hlast, hprev⟩ :=
      refineGoT_ok maxA tryEx correct maxA 0 sql [] rr tried h
    exact ⟨hex, by omega, by omega, by omega, hlast, hprev⟩

/-- Witness for the C2 theorem: with a budget of 3, an always-failing
executor and an identity corrector, the run makes exactly 3 tries and
fails with the quoted message; with an immediately succeeding executor it
returns after exactly one try. -/
theorem refiner_attempt_budget_witness :
    (∃ (tried : List String) (e : AppError),
      refineTrace 3 (fun q => .error (.QueryError q)) (fun q _ _ => .ok q) "SELECT 1" =
        (.error (.AgentError ("Query refinement failed after " ++ toString 3 ++
          " attempts. Last error: " ++ e.display)), tried) ∧
      tried.length = 3 ∧ tried.head? = some "SELECT 1" ∧
      ∃ last, tried.getLast? = some last ∧
        (fun q => (.error (.QueryError q) : Except AppError QueryResult)) last = .error e) ∧
    ((fun _ => (.ok ⟨[], [], 0⟩ : Except AppError QueryResult)) "SELECT 1" =
        .ok (⟨"SELECT 1", ⟨[], [], 0⟩, 1⟩ : RefinerResult).result ∧
      (⟨"SELECT 1", ⟨[], [], 0⟩, 1⟩ : RefinerResult).attempts = ["SELECT 1"].length ∧
      1 ≤ (⟨"SELECT 1", ⟨[], [], 0⟩, 1⟩ : RefinerResult).attempts ∧
      (⟨"SELECT 1", ⟨[], [], 0⟩, 1⟩ : RefinerResult).attempts ≤ 3 ∧
      ["SELECT 1"].getLast? = some (⟨"SELECT 1", ⟨[], [], 0⟩, 1⟩ : RefinerResult).finalSql ∧
      ∀ q ∈ (["SELECT 1"] : List String).dropLast,
        ∃ e2, (fun _ => (.ok ⟨[], [], 0⟩ : Except AppError QueryResult)) q = .error e2) := by
  constructor
  · exact refiner_attempt_budget.2.1 3 (fun q => .error (.QueryError q))
      (fun q _ _ => .ok q) "SELECT 1" (by omega)
      (fun q => ⟨.QueryError q, rfl⟩) (fun q e h => ⟨q, rfl⟩)
  · exact refiner_attempt_budget.2.2.1 3 (fun _ => .ok ⟨[], [], 0⟩)
      (fun q _ _ => .ok q) "SELECT 1" ⟨"SELECT 1", ⟨[], [], 0⟩, 1⟩ ["SELECT 1"] rfl

/-- Every accepted output of `validate_sql` still starts, case-
insensitively, with `SELECT`. -/
theorem validate_sql_ok_select {x s : String} (hx : validate_sql x = .ok s) :
    ciStarts "SELECT".data s.data = true := by
  simp only [validate_sql] at hx
  split at hx
  · exact absurd hx (by simp)
  · rename_i hcond
    split at hx
    · exact absurd hx (by simp)
    · rename_i hsel
      split at hx
      · exact absurd hx (by simp)
      · have hsdata : s.data = applyLimitPolicy (stripTrailingSemis (trimChars x.data)) := by
          have := congrArg String.data (Except.ok.inj hx)
          exact this.symm
        have hsel2 : ciStarts "SELECT".data (trimChars x.data) = true := by
          cases hb : ciStarts "SELECT".data (trimChars x.data) with
          | false =>
            exfalso
            apply hsel
            rw [show (['S', 'E', 'L', 'E', 'C', 'T'] : List Char) = "SELECT".data from rfl, hb]
            rfl
          | true => rfl
        obtain ⟨v, hv, hvs⟩ := strip_decomp (trimChars x.data)
        have hu_sel : ciStarts "SELECT".data (stripTrailingSemis (trimChars x.data)) = true := by
          refine ciStarts_of_append_semis (by decide) hvs ?_
          rw [← hv]
          exact hsel2
        rw [hsdata]
        exact applyLimitPolicy_keeps_select hu_sel

/-- The `try_execute` step of the Refiner (`refiner.rs`): sanitize with
`validate_sql`, run the dialect checks on the sanitized text, then hand it
to the database execution service `exec` (which abstracts
`query::execute_query(connections, connection_id, &sanitized, 100, 0)`,
the fixed row cap and zero offset included). -/
def refinerTryExecute (exec : String → Except AppError QueryResult)
    (dbType : String) (sql : String) : Except AppError QueryResult :=
  match validate_sql sql with
  | .error e => .error e
  | .ok sanitized =>
    match validate_for_db_type sanitized dbType with
    | .error e => .error e
    | .ok _ => exec sanitized

/-- Result of a tool execution as built in `src/ai/tools/execute_sql.rs`
(observation text plus optional query data). -/
structure ToolResult where
  observation : String
  data : Option QueryResult
  deriving DecidableEq

/-- Model of `execute_sql_tool` (`src/ai/tools/execute_sql.rs`): sanitize
the query, look up the connection's dialect (`getDbType` abstracts
`connections.get_connection` plus the `DatabaseType` → string mapping),
run the dialect checks on the sanitized text, honour `dry_run`, execute
through `exec`, and build the observation message (`timeMs` abstracts the
`Instant` wall-clock measurement).  The source file destructures a
`dry_run` field that the `Tool` enum in `agent/state.rs` does not declare
(an inconsistency in the repository); the model keeps the field as this
file uses it. -/
def executeSqlTool (exec : String → Except AppError QueryResult)
    (getDbType : Except AppError String) (timeMs : Nat)
    (query : String) (dryRun : Bool) : Except AppError ToolResult :=
  match validate_sql query with
  | .error e => .error e
  | .ok sanitized =>
    match getDbType with
    | .error e => .error e
    | .ok dbType =>
      match validate_for_db_type sanitized dbType with
      | .error e => .error e
      | .ok _ =>
        if dryRun then
          .ok ⟨"SQL query generated and validated successfully:\n\n```sql\n" ++ sanitized ++
            "\n```\n\nThis query is ready to be used.", none⟩
        else
          match exec sanitized with
          | .error e => .error e
          | .ok result =>
            .ok ⟨if result.rowCount = 0 then
                "Query executed successfully but returned 0 rows. The query was valid but no data matched the criteria."
              else
                "Query executed successfully in " ++ toString timeMs ++ "ms. Returned " ++
                  toString result.rowCount ++ " row" ++
                  (if result.rowCount = 1 then "" else "s") ++
                  ". The results are displayed in the table above.", some result⟩

/-- Message roles (`agent/state.rs`). -/
inductive MessageRole where
  | System
  | User
  | Assistant
  | Tool
  deriving DecidableEq

/-- A model-requested tool call as consumed by the loop in
`react_agent.rs`: the call id, the function name, and the result of
parsing the arguments JSON and extracting its `"query"` string (the
source's `serde_json::from_str` followed by `args["query"].as_str()`,
whose failure becomes the `AgentError` that aborts the run). -/
structure ToolCallReq where
  id : String
  fnName : String
  argQuery : Except AppError String
  deriving DecidableEq

/-- Conversation message (`Message` in `agent/state.rs`); the `Utc::now()`
timestamp is omitted (wall-clock I/O) and `tool_calls` carries the parsed
requests. -/
structure Msg where
  role : MessageRole
  content : String
  toolCallId : Option String
  toolCalls : Option (List ToolCallReq)
  deriving DecidableEq

/-- The `Message::tool` constructor. -/
def Msg.tool (content : String) (id : String) : Msg := ⟨.Tool, content, some id, none⟩

/-- The first choice of a chat-with-tools response (`choice.message`):
optional content and optional tool-call list. -/
structure ChatChoice where
  content : Option String
  toolCalls : Option (List ToolCallReq)
  deriving DecidableEq

/-- Final agent response (`AgentResponse` in `agent/state.rs`); the `u8`
iteration counter is modelled as `Nat`. -/
structure AgentResponse where
  answer : String
  sqlQueries : List String
  iterations : Nat
  deriving DecidableEq

/-- The recovery observation pushed when `execute_sql_tool` fails inside
the tool-calling loop. -/
def sqlFailObservation (e : AppError) : String :=
  "SQL execution failed: " ++ e.display ++ "\n\nCommon fixes:\n" ++
  "- Check for typos in SQL keywords (SELECT, FROM, WHERE, etc.)\n" ++
  "- Verify table and column names exist in the schema\n" ++
  "- Ensure LIMIT clause is present (required, max 100)\n" ++
  "- Check for proper quote usage (single quotes for strings)\n" ++
  "- Verify JOIN conditions reference valid columns\n" ++
  "Please review the error, check the schema, and try again with a corrected query."

/-- The `for tool_call in tool_calls` loop of `run_react_agent`:
non-`execute_sql` calls are skipped, an argument-parse failure aborts the
run, a tool failure appends the recovery observation and continues, a
success appends the tool observation; every extracted query text is
recorded.  The table/chart/statistic event emissions are fire-and-forget
I/O and are not modelled. -/
def processToolCalls (exec : String → Except AppError QueryResult)
    (getDbType : Except AppError String) (timeMs : Nat) :
    List ToolCallReq → List Msg → List String →
      Except AppError (List Msg × List String)
  | [], msgs, sqls => .ok (msgs, sqls)
  | tc :: rest, msgs, sqls =>
    if tc.fnName ≠ "execute_sql" then processToolCalls exec getDbType timeMs rest msgs sqls
    else
      match tc.argQuery with
      | .error e => .error e
      | .ok query =>
        match executeSqlTool exec getDbType timeMs query false with
        | .error e =>
          processToolCalls exec getDbType timeMs rest
            (msgs ++ [Msg.tool (sqlFailObservation e) tc.id]) (sqls ++ [query])
        | .ok tr =>
          processToolCalls exec getDbType timeMs rest
            (msgs ++ [Msg.tool tr.observation tc.id]) (sqls ++ [query])

/-- The bounded tool-calling loop of `run_react_agent` (the
`while iterations < max_iterations` from line 109).  `chat` abstracts
`client.chat_with_tools` composed with `response.choices.first()` (an
absent first choice is the oracle's own `AgentError`); `fuel` counts the
remaining guard checks, initially `maxIterations`. -/
def runReactLoop (chat : List Msg → Except AppError ChatChoice)
    (exec : String → Except AppError QueryResult)
    (getDbType : Except AppError String) (timeMs : Nat) (maxIterations : Nat) :
    Nat → List Msg → List String → Nat → Except AppError AgentResponse
  | 0, _, _, _ =>
    .error (.AgentError ("Maximum iterations (" ++ toString maxIterations ++
      ") reached without finding answer"))
  | fuel + 1, msgs, sqls, iterations =>
    match chat msgs with
    | .error e => .error e
    | .ok choice =>
      match choice.toolCalls with
      | some tcs =>
        match processToolCalls exec getDbType timeMs tcs
            (msgs ++ [⟨.Assistant, choice.content.getD "", none, some tcs⟩]) sqls with
        | .error e => .error e
        | .ok (msgs2, sqls2) =>
          runReactLoop chat exec getDbType timeMs maxIterations fuel msgs2 sqls2 (iterations + 1)
      | none =>
        match choice.content with
        | some content => .ok ⟨content, sqls, iterations + 1⟩
        | none => .error (.AgentError "Model returned empty response")

/-- Entry into the tool-calling loop with the source's
`max_iterations = 5`, starting from the prepared message list and an empty
query log. -/
def runReact (chat : List Msg → Except AppError ChatChoice)
    (exec : String → Except AppError QueryResult)
    (getDbType : Except AppError String) (timeMs : Nat)
    (initialMsgs : List Msg) : Except AppError AgentResponse :=
  runReactLoop chat exec getDbType timeMs 5 5 initialMsgs [] 0

/-- A SQL text is sanitizer-approved for a dialect when it is the
`validate_sql` output of some input and passes the dialect checks. -/
def SanitizedFor (dbType t : String) : Prop :=
  (∃ q, validate_sql q = Except.ok t) ∧ validate_for_db_type t dbType = Except.ok ()

/-- The Refiner's execution step consults the database service only at its
own sanitized output: the result depends on the executor only at
sanitizer-approved texts. -/
theorem refinerTryExecute_congr
    (exec exec' : String → Except AppError QueryResult) (dbType sql : String)
    (hagree : ∀ t, SanitizedFor dbType t → exec t = exec' t) :
    refinerTryExecute exec dbType sql = refinerTryExecute exec' dbType sql := by
  unfold refinerTryExecute
  split
  · rfl
  · rename_i sanitized hv
    split
    · rfl
    · rename_i u hd
      exact hagree sanitized ⟨⟨sql, hv⟩, hd⟩

/-- `execute_sql_tool` consults the database service only at its sanitized
output for the connection's dialect. -/
theorem executeSqlTool_congr
    (exec exec' : String → Except AppError QueryResult)
    (getDbType : Except AppError String) (timeMs : Nat) (query : String) (dryRun : Bool)
    (hagree : ∀ t dbType, getDbType = .ok dbType → SanitizedFor dbType t →
      exec t = exec' t) :
    executeSqlTool exec getDbType timeMs query dryRun =
      executeSqlTool exec' getDbType timeMs query dryRun := by
  unfold executeSqlTool
  split
  · rfl
  · split
    · rfl
    · split
      · rfl
      · split
        · rfl
        · have hq := hagree _ _ rfl ⟨⟨query, by assumption⟩, by assumption⟩
          rw [hq]

/-- Pointwise-equal executors give the same refinement loop. -/
theorem refineGo_congr (maxAttempts : Nat)
    (tryEx tryEx' : String → Except AppError QueryResult)
    (correct : String → String → List RefinementAttempt → Except AppError String)
    (hagree : ∀ q, tryEx q = tryEx' q) :
    ∀ (fuel : Nat) (cur : String) (hist : List RefinementAttempt) (att : Nat),
      refineGo maxAttempts tryEx correct fuel cur hist att =
        refineGo maxAttempts tryEx' correct fuel cur hist att := by
  intro fuel
  induction fuel with
  | zero => intro cur hist att; rfl
  | succ f ih =>
    intro cur hist att
    simp only [refineGo]
    rw [hagree cur]
    split
    · rfl
    · by_cases hm : maxAttempts ≤ att + 1
      · rw [if_pos hm, if_pos hm]
      · rw [if_neg hm, if_neg hm]
        split
        · rfl
        · exact ih _ _ (att + 1)

/-- The body of the tool-call loop consults the database service only
through `executeSqlTool`, hence only at sanitizer-approved texts. -/
theorem processToolCalls_congr
    (exec exec' : String → Except AppError QueryResult)
    (getDbType : Except AppError String) (timeMs : Nat)
    (hagree : ∀ t dbType, getDbType = .ok dbType → SanitizedFor dbType t →
      exec t = exec' t) :
    ∀ (tcs : List ToolCallReq) (msgs : List Msg) (sqls : List String),
      processToolCalls exec getDbType timeMs tcs msgs sqls =
        processToolCalls exec' getDbType timeMs tcs msgs sqls := by
  intro tcs
  induction tcs with
  | nil => intro msgs sqls; rfl
  | cons tc rest ih =>
    intro msgs sqls
    simp only [processToolCalls]
    by_cases hn : tc.fnName ≠ "execute_sql"
    · rw [if_pos hn, if_pos hn]
      exact ih msgs sqls
    · rw [if_neg hn, if_neg hn]
      split
      · rfl
      · rename_i query harg
        rw [executeSqlTool_congr exec exec' getDbType timeMs query false hagree]
        split
        · exact ih _ _
        · exact ih _ _

/-- The whole tool-calling loop consults the database service only at
sanitizer-approved texts. -/
theorem runReactLoop_congr
    (chat : List Msg → Except AppError ChatChoice)
    (exec exec' : String → Except AppError QueryResult)
    (getDbType : Except AppError String) (timeMs maxIterations : Nat)
    (hagree : ∀ t dbType, getDbType = .ok dbType → SanitizedFor dbType t →
      exec t = exec' t) :
    ∀ (fuel : Nat) (msgs : List Msg) (sqls : List String) (iterations : Nat),
      runReactLoop chat exec getDbType timeMs maxIterations fuel msgs sqls iterations =
        runReactLoop chat exec' getDbType timeMs maxIterations fuel msgs sqls iterations := by
  intro fuel
  induction fuel with
  | zero => intro msgs sqls iterations; rfl
  | succ f ih =>
    intro msgs sqls iterations
    simp only [runReactLoop]
    split
    · rfl
    · rename_i choice hchat
      split
      · rename_i tcs htcs
        rw [processToolCalls_congr exec exec' getDbType timeMs hagree]
        split
        · rfl
        · exact ih _ _ (iterations + 1)
      · rfl

/-- C1: every piece of model-generated SQL passes `validate_sql` and then
`validate_for_db_type` before reaching the database execution service.
Formally, each execution entry point depends on the executor oracle only
at texts that are `validate_sql` outputs passing the dialect check
(`SanitizedFor`): any two executors agreeing on sanitizer-approved texts
yield identical behaviour of (1) the Refiner's `try_execute`, (2) the full
`refine_and_execute` built on it, (3) the tool's `execute_sql_tool`, and
(4) the whole tool-calling loop `run_react_agent` — so no code path hands
unsanitized text to the database. -/
theorem sanitizer_gates_all_execution :
    (∀ (exec exec' : String → Except AppError QueryResult) (dbType sql : String),
      (∀ t, SanitizedFor dbType t → exec t = exec' t) →
      refinerTryExecute exec dbType sql = refinerTryExecute exec' dbType sql) ∧
    (∀ (maxA : Nat) (exec exec' : String → Except AppError QueryResult)
      (correct : String → String → List RefinementAttempt → Except AppError String)
      (dbType sql : String),
      (∀ t, SanitizedFor dbType t → exec t = exec' t) →
      refine_and_execute maxA (refinerTryExecute exec dbType) correct sql =
        refine_and_execute maxA (refinerTryExecute exec' dbType) correct sql) ∧
    (∀ (exec exec' : String → Except AppError QueryResult)
      (getDbType : Except AppError String) (timeMs : Nat) (query : String) (dryRun : Bool),
      (∀ t dbType, getDbType = .ok dbType → SanitizedFor dbType t → exec t = exec' t) →
      executeSqlTool exec getDbType timeMs query dryRun =
        executeSqlTool exec' getDbType timeMs query dryRun) ∧
    (∀ (chat : List Msg → Except AppError ChatChoice)
      (exec exec' : String → Except AppError QueryResult)
      (getDbType : Except AppError String) (timeMs : Nat) (initialMsgs : List Msg),
      (∀ t dbType, getDbType = .ok dbType → SanitizedFor dbType t → exec t = exec' t) →
      runReact chat exec getDbType timeMs initialMsgs =
        runReact chat exec' getDbType timeMs initialMsgs) := by
  refine ⟨refinerTryExecute_congr, ?_, executeSqlTool_congr, ?_⟩
  · intro maxA exec exec' correct dbType sql hagree
    exact refineGo_congr maxA _ _ correct
      (fun q => refinerTryExecute_congr exec exec' dbType q hagree) maxA sql [] 0
  · intro chat exec exec' getDbType timeMs initialMsgs hagree
    exact runReactLoop_congr chat exec exec' getDbType timeMs 5 hagree 5 initialMsgs [] 0

/-- Witness for C1: two executors that differ only at the unsanitizable
text `"DROP TABLE x"` (which no `validate_sql` output can equal, since
outputs start with `SELECT`) are indistinguishable to the Refiner step and
to the tool-calling loop at concrete inputs. -/
theorem sanitizer_gates_all_execution_witness :
    refinerTryExecute
        (fun t => if t = "DROP TABLE x" then .error (.QueryError "boom") else .ok ⟨[], [], 0⟩)
        "postgres" "SELECT * FROM t" =
      refinerTryExecute (fun _ => .ok ⟨[], [], 0⟩) "postgres" "SELECT * FROM t" ∧
    runReact (fun _ => .ok ⟨some "done", none⟩)
        (fun t => if t = "DROP TABLE x" then .error (.QueryError "boom") else .ok ⟨[], [], 0⟩)
        (.ok "postgres") 0 [] =
      runReact (fun _ => .ok ⟨some "done", none⟩) (fun _ => .ok ⟨[], [], 0⟩)
        (.ok "postgres") 0 [] := by
  have hag : ∀ t, SanitizedFor "postgres" t →
      (fun t => if t = "DROP TABLE x" then
          (.error (.QueryError "boom") : Except AppError QueryResult)
        else .ok ⟨[], [], 0⟩) t = (fun _ => (.ok ⟨[], [], 0⟩ : Except AppError QueryResult)) t := by
    intro t hs
    obtain ⟨⟨q, hq⟩, -⟩ := hs
    have hsel := validate_sql_ok_select hq
    by_cases ht : t = "DROP TABLE x"
    · subst ht
      exact absurd hsel (by decide)
    · simp only [if_neg ht]
  refine ⟨sanitizer_gates_all_execution.1 _ _ "postgres" "SELECT * FROM t" hag, ?_⟩
  refine sanitizer_gates_all_execution.2.2.2 _ _ _ (.ok "postgres") 0 [] ?_
  intro t dbType hdbt hs
  have : dbType = "postgres" := (Except.ok.inj hdbt).symm ▸ rfl
  subst this
  exact hag t hs

/-- A sub-query produced by the Decomposer (`SubQuery` in
`decomposer.rs`); the `usize` order is modelled as `Nat`. -/
structure SubQuery where
  question : String
  sql : String
  order : Nat
  dependsOnPrevious : Bool
  deriving DecidableEq

/-- The user-facing abort answer built in `run_mac_sql_agent` when a
required sub-query exhausts its refinement attempts. -/
def abortAnswer (e : AppError) (sql : String) : String :=
  "I encountered an error executing the query: " ++ e.display ++
  "\n\nThe query I tried was:\n```sql\n" ++ sql ++
  "\n```\n\nPlease check that the table and column names are correct, or try rephrasing your question."

/-- Outcome of the per-sub-query Refiner loop of `run_mac_sql_agent`. -/
inductive MacOutcome where
  | aborted (resp : AgentResponse)
  | completed (allSql : List String) (allResults : List QueryResult) (attemptSum : Nat)
  deriving DecidableEq

/-- The `for (idx, sub_query) in queries.iter().enumerate()` loop of
`run_mac_sql_agent` (lines 105-174).  `refine` abstracts
`refiner.refine_and_execute` applied with the fixed question, pruned
schema, dialect and connection.  On success the final SQL and result are
accumulated and the attempt counts summed (the response's `iterations`);
on failure the run aborts with the apology response when `idx == 0` or
the sub-query depends on previous results, and the sub-query is skipped
otherwise.  Event emissions are fire-and-forget I/O and not modelled. -/
def macLoop (refine : SubQuery → Except AppError RefinerResult) :
    List SubQuery → Nat → List String → List QueryResult → Nat → MacOutcome
  | [], _, accSql, accRes, accAtt => .completed accSql accRes accAtt
  | q :: rest, idx, accSql, accRes, accAtt =>
    match refine q with
    | .ok r =>
      macLoop refine rest (idx + 1) (accSql ++ [r.finalSql]) (accRes ++ [r.result])
        (accAtt + r.attempts)
    | .error e =>
      if idx == 0 || q.dependsOnPrevious then
        .aborted ⟨abortAnswer e q.sql, [q.sql], 1⟩
      else macLoop refine rest (idx + 1) accSql accRes accAtt

/-- Model of `generate_final_answer` (`mac_sql.rs`): the zero- and
single-result branches are pure as in the source (the single-value case
reads the first value of the first row, in map order); the multi-result
branch delegates to the text-generation service `summarize`, applied to
the question, the reasoning, and the per-query summary lines the source
folds into its prompt. -/
def generate_final_answer (question : String) (results : List QueryResult)
    (reasoning : String)
    (summarize : String → String → List String → Except AppError String) :
    Except AppError String :=
  match results with
  | [] => .ok "No data was retrieved to answer your question."
  | [result] =>
    if result.rowCount = 0 then
      .ok "The query returned no results matching your criteria."
    else
      match (if result.rowCount = 1 && result.columns.length = 1 then
          result.rows.head?.bind fun row => row.head?.map fun kv =>
            "Based on your query, the answer is: **" ++ kv.2 ++ "**"
        else none) with
      | some a => .ok a
      | none =>
        .ok ("Found " ++ toString result.rowCount ++
          " row(s) of data. The results are displayed in the table above.")
  | _ =>
    summarize question reasoning
      (results.enum.map fun p =>
        "Query " ++ toString (p.1 + 1) ++ ": " ++ toString p.2.rowCount ++
          " rows, columns: " ++ String.intercalate ", " p.2.columns)

/-- The tail of `run_mac_sql_agent` after decomposition: run the Refiner
loop over the (sorted) sub-queries, return the apology response when a
required sub-query fails, otherwise synthesize the final answer from the
accumulated results. -/
def macAfterDecompose (refine : SubQuery → Except AppError RefinerResult)
    (summarize : String → String → List String → Except AppError String)
    (question reasoning : String) (queries : List SubQuery) :
    Except AppError AgentResponse :=
  match macLoop refine queries 0 [] [] 0 with
  | .aborted resp => .ok resp
  | .completed allSql allResults attemptSum =>
    match generate_final_answer question allResults reasoning summarize with
    | .error e => .error e
    | .ok answer => .ok ⟨answer, allSql, attemptSum⟩

/-- C5: the fixed pipeline's failure policy.  (1) If the first sub-query
exhausts its Refiner attempts, the run aborts and the returned answer
contains the literal failing SQL (as a substring, between explicit
context strings).  (2) At any loop position, a failure at index 0 or on a
`depends_on_previous` sub-query aborts with the apology response quoting
that sub-query's SQL.  (3) A failure at a later, independent sub-query is
skipped: the loop continues unchanged.  (4) In a two-query run where the
first succeeds and the second fails independently, the final answer is
produced from the successful sub-query's result alone. -/
theorem mac_sql_failure_policy :
    (∀ (refine : SubQuery → Except AppError RefinerResult)
      (summarize : String → String → List String → Except AppError String)
      (question reasoning : String) (q : SubQuery) (rest : List SubQuery) (e : AppError),
      refine q = .error e →
      ∃ pre post, macAfterDecompose refine summarize question reasoning (q :: rest) =
        .ok ⟨pre ++ q.sql ++ post, [q.sql], 1⟩) ∧
    (∀ (refine : SubQuery → Except AppError RefinerResult) (q : SubQuery)
      (rest : List SubQuery) (idx : Nat) (accSql : List String)
      (accRes : List QueryResult) (accAtt : Nat) (e : AppError),
      refine q = .error e → (idx = 0 ∨ q.dependsOnPrevious = true) →
      macLoop refine (q :: rest) idx accSql accRes accAtt =
        .aborted ⟨abortAnswer e q.sql, [q.sql], 1⟩) ∧
    (∀ (refine : SubQuery → Except AppError RefinerResult) (q : SubQuery)
      (rest : List SubQuery) (idx : Nat) (accSql : List String)
      (accRes : List QueryResult) (accAtt : Nat) (e : AppError),
      refine q = .error e → idx ≠ 0 → q.dependsOnPrevious = false →
      macLoop refine (q :: rest) idx accSql accRes accAtt =
        macLoop refine rest (idx + 1) accSql accRes accAtt) ∧
    (∀ (refine : SubQuery → Except AppError RefinerResult)
      (summarize : String → String → List String → Except AppError String)
      (question reasoning : String) (q0 q1 : SubQuery) (r0 : RefinerResult) (e : AppError),
      refine q0 = .ok r0 → refine q1 = .error e → q1.dependsOnPrevious = false →
      macAfterDecompose refine summarize question reasoning [q0, q1] =
        (match generate_final_answer question [r0.result] reasoning summarize with
        | .error e2 => .error e2
        | .ok answer => .ok ⟨answer, [r0.finalSql], r0.attempts⟩)) := by
  refine ⟨?_, ?_, ?_, ?_⟩
  · intro refine summarize question reasoning q rest e h
    refine ⟨"I encountered an error executing the query: " ++ e.display ++
      "\n\nThe query I tried was:\n```sql\n",
      "\n```\n\nPlease check that the table and column names are correct, or try rephrasing your question.",
      ?_⟩
    simp only [macAfterDecompose, macLoop, h]
    rw [if_pos (by simp)]
    rfl
  · intro refine q rest idx accSql accRes accAtt e h hor
    simp only [macLoop, h]
    rw [if_pos (by rcases hor with h1 | h1 <;> simp [h1])]
  · intro refine q rest idx accSql accRes accAtt e h hidx hdep
    simp only [macLoop, h]
    rw [if_neg (by simp [hidx, hdep])]
  · intro refine summarize question reasoning q0 q1 r0 e h0 h1 hdep
    have hloop : macLoop refine [q0, q1] 0 [] [] 0 =
        .completed [r0.finalSql] [r0.result] r0.attempts := by
      simp only [macLoop, h0, h1, List.nil_append, Nat.zero_add]
      rw [if_neg (by simp [hdep])]
    simp only [macAfterDecompose, hloop]

/-- Witness for C5 at concrete sub-queries: an always-failing refiner on
a single sub-query aborts with the SQL quoted in the answer, and a run
whose second, independent sub-query fails still produces the final
answer from the first sub-query's result. -/
theorem mac_sql_failure_policy_witness :
    (∃ pre post,
      macAfterDecompose (fun _ => .error (.AgentError "failed"))
          (fun _ _ _ => .ok "sum") "Q" "R" [⟨"q0", "SELECT 0", 0, false⟩] =
        .ok ⟨pre ++ (⟨"q0", "SELECT 0", 0, false⟩ : SubQuery).sql ++ post, ["SELECT 0"], 1⟩) ∧
    macAfterDecompose
        (fun q => if q.order == 0 then
          .ok ⟨"SELECT 0 LIMIT 100", ⟨["c"], [[("c", "5")]], 1⟩, 1⟩
        else .error (.AgentError "failed"))
        (fun _ _ _ => .ok "sum") "Q" "R"
        [⟨"q0", "SELECT 0", 0, false⟩, ⟨"q1", "SELECT 1", 1, false⟩] =
      (match generate_final_answer "Q"
          [(⟨"SELECT 0 LIMIT 100", ⟨["c"], [[("c", "5")]], 1⟩, 1⟩ : RefinerResult).result]
          "R" (fun _ _ _ => .ok "sum") with
      | .error e2 => .error e2
      | .ok answer => .ok ⟨answer, ["SELECT 0 LIMIT 100"], 1⟩) := by
  constructor
  · exact mac_sql_failure_policy.1 (fun _ => .error (.AgentError "failed"))
      (fun _ _ _ => .ok "sum") "Q" "R" ⟨"q0", "SELECT 0", 0, false⟩ [] (.AgentError "failed") rfl
  · exact mac_sql_failure_policy.2.2.2
      (fun q => if q.order == 0 then
        .ok ⟨"SELECT 0 LIMIT 100", ⟨["c"], [[("c", "5")]], 1⟩, 1⟩
      else .error (.AgentError "failed"))
      (fun _ _ _ => .ok "sum") "Q" "R"
      ⟨"q0", "SELECT 0", 0, false⟩ ⟨"q1", "SELECT 1", 1, false⟩
      ⟨"SELECT 0 LIMIT 100", ⟨["c"], [[("c", "5")]], 1⟩, 1⟩ (.AgentError "failed")
      rfl rfl rfl

/-- Column metadata (`ColumnInfo` in `src/db/schema.rs`); `i32` lengths
and `i64` row counts are modelled as `Int`. -/
structure ColumnInfo where
  name : String
  dataType : String
  isNullable : Bool
  isPrimaryKey : Bool
  isForeignKey : Bool
  foreignKeyTable : Option String
  foreignKeyColumn : Option String
  defaultValue : Option String
  characterMaximumLength : Option Int
  deriving DecidableEq

/-- Index metadata (`IndexInfo` in `schema.rs`). -/
structure IndexInfo where
  name : String
  columns : List String
  isUnique : Bool
  isPrimary : Bool
  indexType : Option String
  deriving DecidableEq

/-- Trigger metadata (`TriggerInfo` in `schema.rs`). -/
structure TriggerInfo where
  name : String
  event : String
  timing : String
  statement : Option String
  deriving DecidableEq

/-- Constraint metadata (`ConstraintInfo` in `schema.rs`). -/
structure ConstraintInfo where
  name : String
  constraintType : String
  columns : List String
  referencedTable : Option String
  referencedColumns : Option (List String)
  deriving DecidableEq

/-- Table metadata (`Table` in `schema.rs`). -/
structure Table where
  name : String
  schema : Option String
  rowCount : Option Int
  columns : List ColumnInfo
  indexes : List IndexInfo
  triggers : List TriggerInfo
  constraints : List ConstraintInfo
  deriving DecidableEq

/-- Database schema (`Schema` in `schema.rs`). -/
structure Schema where
  databaseName : String
  tables : List Table
  deriving DecidableEq

/-- Result of the Selector agent (`SelectorResult` in `selector.rs`). -/
structure SelectorResult where
  prunedSchema : Schema
  selectedTables : List String
  deriving DecidableEq

/-- One entry of the parsed `tables` array of the Selector's model
response: `name` models `table_obj["name"].as_str()` and `columns` models
`table_obj["columns"].as_array()` with its string elements extracted (the
source's `filter_map(as_str)` drops non-string elements, so they are
simply absent from the list). -/
structure SelEntry where
  name : Option String
  columns : Option (List String)
  deriving DecidableEq

/-- Rust's `str::eq_ignore_ascii_case`. -/
def ciStrEq (a b : String) : Bool :=
  a.data.length == b.data.length && ciStarts a.data b.data

/-- The `for col in &full_table.columns` pass of
`parse_selection_response`: push every primary- or foreign-key column
whose name is not yet present. -/
def addKeyColumns (fullCols filtered : List ColumnInfo) : List ColumnInfo :=
  fullCols.foldl (fun acc col =>
    if (col.isPrimaryKey || col.isForeignKey) && !(acc.any fun c => c.name == col.name) then
      acc ++ [col]
    else acc) filtered

/-- The per-entry loop of `SelectorAgent::parse_selection_response`
(lines 148-201): a missing name is a hard error; an unmatched table name
is skipped; a matched table keeps the case-insensitive intersection of
its columns with the requested ones (all columns when none were
requested, or when the requested list is empty), then unconditionally
adds primary/foreign-key columns. -/
def buildPrunedTables (fullSchema : Schema) :
    List SelEntry → Except AppError (List Table × List String)
  | [] => .ok ([], [])
  | e :: rest =>
    match e.name with
    | none => .error (.AgentError "Invalid table object: missing name")
    | some nm =>
      match fullSchema.tables.find? (fun t => ciStrEq t.name nm) with
      | some fullTable =>
        let columnNames := e.columns.getD (fullTable.columns.map (fun c => c.name))
        let filtered := if columnNames.isEmpty then fullTable.columns
          else fullTable.columns.filter fun c => columnNames.any fun cn => ciStrEq cn c.name
        let finalCols := addKeyColumns fullTable.columns filtered
        match buildPrunedTables fullSchema rest with
        | .error err => .error err
        | .ok (ts, ns) =>
          .ok ({ fullTable with columns := finalCols } :: ts, fullTable.name :: ns)
      | none => buildPrunedTables fullSchema rest

/-- Model of `parse_selection_response` after JSON extraction: build the
pruned tables from the parsed entries and fall back to the full schema
when no table was selected.  (The earlier failure modes — unparsable
JSON and a missing `tables` array — are hard errors before this point
and are outside the entries model.) -/
def selectorParse (fullSchema : Schema) (entries : List SelEntry) :
    Except AppError SelectorResult :=
  match buildPrunedTables fullSchema entries with
  | .error e => .error e
  | .ok (prunedTables, names) =>
    if prunedTables.isEmpty then
      .ok ⟨fullSchema, fullSchema.tables.map (fun t => t.name)⟩
    else
      .ok ⟨⟨fullSchema.databaseName, prunedTables⟩, names⟩

/-- Accumulator membership is preserved by the key-column pass. -/
theorem addKeyColumns_mono {x : ColumnInfo} :
    ∀ (l acc : List ColumnInfo), x ∈ acc → x ∈ addKeyColumns l acc := by
  intro l
  induction l with
  | nil => intro acc hx; exact hx
  | cons a l2 ih =>
    intro acc hx
    unfold addKeyColumns
    rw [List.foldl_cons]
    apply ih
    by_cases hc : ((a.isPrimaryKey || a.isForeignKey) &&
        !(acc.any fun c => c.name == a.name)) = true
    · rw [if_pos hc]
      exact List.mem_append_left _ hx
    · rw [if_neg hc]
      exact hx

/-- Every key column of the full column list is present, by name, after
the key-column pass. -/
theorem addKeyColumns_key_mem {c : ColumnInfo} :
    ∀ (l acc : List ColumnInfo), c ∈ l →
      (c.isPrimaryKey = true ∨ c.isForeignKey = true) →
      ∃ c2 ∈ addKeyColumns l acc, c2.name = c.name := by
  intro l
  induction l with
  | nil => intro acc hx _; exact absurd hx (List.not_mem_nil c)
  | cons a l2 ih =>
    intro acc hx hkey
    rcases List.mem_cons.mp hx with rfl | hx2
    · unfold addKeyColumns
      rw [List.foldl_cons]
      by_cases hc : ((c.isPrimaryKey || c.isForeignKey) &&
          !(acc.any fun x => x.name == c.name)) = true
      · rw [if_pos hc]
        exact ⟨c, addKeyColumns_mono l2 _ (List.mem_append_right _ (by simp)), rfl⟩
      · rw [if_neg hc]
        have hk : (c.isPrimaryKey || c.isForeignKey) = true := by
          rcases hkey with h | h
          · rw [h]
            rfl
          · rw [h, Bool.or_true]
        have hany : (acc.any fun x => x.name == c.name) = true := by
          cases hb2 : acc.any fun x => x.name == c.name with
          | true => rfl
          | false => exact absurd (by rw [hk, hb2]; rfl) hc
        obtain ⟨x, hxacc, hxname⟩ := List.any_eq_true.mp hany
        exact ⟨x, addKeyColumns_mono l2 acc hxacc, by simpa using hxname⟩
    · exact ih _ hx2 hkey

/-- Pruned tables arise from a matched full-schema table whose key
columns all survive, by name. -/
theorem buildPrunedTables_key_columns (fullSchema : Schema) :
    ∀ (entries : List SelEntry) (ts : List Table) (ns : List String),
      buildPrunedTables fullSchema entries = .ok (ts, ns) →
      ∀ pt ∈ ts, ∃ ft ∈ fullSchema.tables,
        ft.name = pt.name ∧
        ∀ c ∈ ft.columns, (c.isPrimaryKey = true ∨ c.isForeignKey = true) →
          ∃ c2 ∈ pt.columns, c2.name = c.name := by
  intro entries
  induction entries with
  | nil =>
    intro ts ns h pt hpt
    simp only [buildPrunedTables] at h
    obtain ⟨h1, -⟩ := Prod.mk.injEq .. ▸ Except.ok.inj h
    rw [← h1] at hpt
    exact absurd hpt (List.not_mem_nil pt)
  | cons e rest ih =>
    intro ts ns h pt hpt
    cases hn : e.name with
    | none =>
      simp only [buildPrunedTables, hn] at h
      exact absurd h (by simp)
    | some nm =>
      cases hf : fullSchema.tables.find? (fun t => ciStrEq t.name nm) with
      | none =>
        simp only [buildPrunedTables, hn, hf] at h
        exact ih ts ns h pt hpt
      | some fullTable =>
        cases hb : buildPrunedTables fullSchema rest with
        | error err =>
          simp only [buildPrunedTables, hn, hf, hb] at h
          exact absurd h (by simp)
        | ok p =>
          obtain ⟨ts2, ns2⟩ := p
          simp only [buildPrunedTables, hn, hf, hb] at h
          obtain ⟨h1, -⟩ := Prod.mk.injEq .. ▸ Except.ok.inj h
          rw [← h1] at hpt
          rcases List.mem_cons.mp hpt with rfl | hpt2
          · refine ⟨fullTable, List.mem_of_find?_eq_some hf, rfl, ?_⟩
            intro c hc hkey
            exact addKeyColumns_key_mem fullTable.columns _ hc hkey
          · exact ih ts2 ns2 hb pt hpt2

/-- C6: for every table the Selector includes in the pruned schema, there
is a full-schema table of the same name all of whose primary-key or
foreign-key columns appear, by name, in the pruned table's column list —
whether or not the model's column list mentioned them (and in the
zero-table fallback the pruned tables are the full tables themselves). -/
theorem selector_retains_key_columns :
    ∀ (schema : Schema) (entries : List SelEntry) (res : SelectorResult),
      selectorParse schema entries = .ok res →
      ∀ pt ∈ res.prunedSchema.tables, ∃ ft ∈ schema.tables,
        ft.name = pt.name ∧
        ∀ c ∈ ft.columns, (c.isPrimaryKey = true ∨ c.isForeignKey = true) →
          ∃ c2 ∈ pt.columns, c2.name = c.name := by
  intro schema entries res h pt hpt
  cases hb : buildPrunedTables schema entries with
  | error e =>
    simp only [selectorParse, hb] at h
    exact absurd h (by simp)
  | ok p =>
    obtain ⟨ts, ns⟩ := p
    simp only [selectorParse, hb] at h
    by_cases hemp : ts.isEmpty = true
    · rw [if_pos hemp] at h
      have hres : res = ⟨schema, schema.tables.map (fun t => t.name)⟩ :=
        (Except.ok.inj h).symm
      subst hres
      exact ⟨pt, hpt, rfl, fun c hc _ => ⟨c, hc, rfl⟩⟩
    · rw [if_neg hemp] at h
      have hres : res = ⟨⟨schema.databaseName, ts⟩, ns⟩ := (Except.ok.inj h).symm
      subst hres
      exact buildPrunedTables_key_columns schema entries ts ns hb pt hpt

/-- Witness for C6 at a concrete schema: the model requested only the
`name` column of `users`, yet the pruned table contains the primary-key
column `id`. -/
theorem selector_retains_key_columns_witness :
    ∃ ft ∈ (⟨"db", [⟨"users", none, some 5,
        [⟨"id", "integer", false, true, false, none, none, none, none⟩,
         ⟨"name", "text", true, false, false, none, none, none, none⟩],
        [], [], []⟩]⟩ : Schema).tables,
      ft.name = (⟨"users", none, some 5,
        [⟨"name", "text", true, false, false, none, none, none, none⟩,
         ⟨"id", "integer", false, true, false, none, none, none, none⟩],
        [], [], []⟩ : Table).name ∧
      ∀ c ∈ ft.columns, (c.isPrimaryKey = true ∨ c.isForeignKey = true) →
        ∃ c2 ∈ (⟨"users", none, some 5,
          [⟨"name", "text", true, false, false, none, none, none, none⟩,
           ⟨"id", "integer", false, true, false, none, none, none, none⟩],
          [], [], []⟩ : Table).columns, c2.name = c.name :=
  selector_retains_key_columns
    ⟨"db", [⟨"users", none, some 5,
      [⟨"id", "integer", false, true, false, none, none, none, none⟩,
       ⟨"name", "text", true, false, false, none, none, none, none⟩],
      [], [], []⟩]⟩
    [⟨some "USERS", some ["name"]⟩]
    ⟨⟨"db", [⟨"users", none, some 5,
      [⟨"name", "text", true, false, false, none, none, none, none⟩,
       ⟨"id", "integer", false, true, false, none, none, none, none⟩],
      [], [], []⟩]⟩, ["users"]⟩ (by decide)
    ⟨"users", none, some 5,
      [⟨"name", "text", true, false, false, none, none, none, none⟩,
       ⟨"id", "integer", false, true, false, none, none, none, none⟩],
      [], [], []⟩ (by simp)

/-- C7: if every entry of the model's selection carries a name but none
of the names matches a table of the full schema (so zero tables are
selected — this covers the empty selection too), the Selector does not
fail: it returns the entire original schema with all table names listed
as selected. -/
theorem selector_empty_selection_fallback :
    ∀ (schema : Schema) (entries : List SelEntry),
      (∀ e ∈ entries, e.name.isSome = true) →
      (∀ e ∈ entries, ∀ nm, e.name = some nm →
        ∀ t ∈ schema.tables, ciStrEq t.name nm = false) →
      selectorParse schema entries =
        .ok ⟨schema, schema.tables.map (fun t => t.name)⟩ := by
  intro schema entries h1 h2
  have hb : buildPrunedTables schema entries = .ok ([], []) := by
    induction entries with
    | nil => rfl
    | cons e rest ih =>
      cases hn : e.name with
      | none =>
        have := h1 e (by simp)
        rw [hn] at this
        simp at this
      | some nm =>
        have hfind : schema.tables.find? (fun t => ciStrEq t.name nm) = none :=
          List.find?_eq_none.mpr (fun t ht => by
            simp [h2 e (by simp) nm hn t ht])
        simp only [buildPrunedTables, hn, hfind]
        exact ih (fun x hx => h1 x (List.mem_cons_of_mem _ hx))
          (fun x hx => h2 x (List.mem_cons_of_mem _ hx))
  simp only [selectorParse, hb]
  rfl

/-- Witness for C7: a selection naming only a non-existent table falls
back to the full schema. -/
theorem selector_empty_selection_fallback_witness :
    selectorParse
        ⟨"db", [⟨"users", none, some 5,
          [⟨"id", "integer", false, true, false, none, none, none, none⟩],
          [], [], []⟩]⟩ [⟨some "nosuch", none⟩] =
      .ok ⟨⟨"db", [⟨"users", none, some 5,
          [⟨"id", "integer", false, true, false, none, none, none, none⟩],
          [], [], []⟩]⟩, ["users"]⟩ :=
  selector_empty_selection_fallback
    ⟨"db", [⟨"users", none, some 5,
      [⟨"id", "integer", false, true, false, none, none, none, none⟩],
      [], [], []⟩]⟩
    [⟨some "nosuch", none⟩] (by decide) (by decide)

/-- Query complexity (`QueryComplexity` in `decomposer.rs`). -/
inductive QueryComplexity where
  | Simple
  | Complex
  deriving DecidableEq

/-- Result of the Decomposer agent (`DecomposerResult` in
`decomposer.rs`). -/
structure DecomposerResult where
  complexity : QueryComplexity
  queries : List SubQuery
  reasoning : String
  deriving DecidableEq

/-- One entry of the parsed `queries` array of the decomposer response:
each field models the corresponding `as_str`/`as_u64`/`as_bool`
extraction, `none` when the field is absent or of the wrong type (the
`u64` order is cast to `usize`, modelled as `Nat`). -/
structure RawSubQuery where
  question : Option String
  sql : Option String
  order : Option Nat
  dependsOnPrevious : Option Bool
  deriving DecidableEq

/-- The projections of the decomposer's parsed JSON response that the
source reads: `complexity` and `reasoning` as optional strings, and the
`queries` array (`none` when absent or not an array). -/
structure ParsedDecomposer where
  complexity : Option String
  reasoning : Option String
  queries : Option (List RawSubQuery)
  deriving DecidableEq

/-- ASCII lowering of a string (`str::to_lowercase` restricted to the
ASCII range, which covers the compared literal `"complex"`). -/
def asciiLower (s : String) : String := String.mk (s.data.map Char.toLower)

/-- The `for query_obj in queries_array` loop of
`parse_decomposer_response`: a missing `sql` is a hard error, the other
fields fall back to their documented defaults. -/
def buildQueries : List RawSubQuery → Except AppError (List SubQuery)
  | [] => .ok []
  | r :: rest =>
    match r.sql with
    | none => .error (.AgentError "Invalid query object: missing sql")
    | some sql =>
      match buildQueries rest with
      | .error e => .error e
      | .ok qs => .ok (⟨r.question.getD "Answer the user's question", sql,
          r.order.getD 0, r.dependsOnPrevious.getD false⟩ :: qs)

/-- Model of `DecomposerAgent::parse_decomposer_response` after JSON
extraction: read complexity (defaulting to simple) and reasoning, require
the `queries` array, build the sub-queries, sort them by their `order`
field, and fail when no query was generated.  Rust's `sort_by_key` is a
stable ascending sort; it is modelled by the stable `List.insertionSort`,
which agrees with it extensionally (a stable sort is determined by
sortedness, permutation and stability). -/
def parse_decomposer_response (p : ParsedDecomposer) : Except AppError DecomposerResult :=
  let complexityStr := asciiLower (p.complexity.getD "simple")
  let complexity := if complexityStr = "complex" then QueryComplexity.Complex
    else QueryComplexity.Simple
  let reasoning := p.reasoning.getD "No reasoning provided"
  match p.queries with
  | none => .error (.AgentError "Invalid decomposer response: missing queries array")
  | some arr =>
    match buildQueries arr with
    | .error e => .error e
    | .ok queries =>
      let sorted := List.insertionSort (fun a b => a.order ≤ b.order) queries
      if sorted.isEmpty then .error (.AgentError "Decomposer generated no queries")
      else .ok ⟨complexity, sorted, reasoning⟩

/-- C8: the Decomposer's parsed queries are sorted ascending by their
`order` field regardless of the array order the model returned: every
accepted result is pairwise ordered and is a permutation of the queries
built from the raw array; and on the concrete out-of-order example
`[2,0,1]` the resulting order fields are `[0,1,2]`. -/
theorem decomposer_queries_sorted :
    (∀ (p : ParsedDecomposer) (res : DecomposerResult),
      parse_decomposer_response p = .ok res →
      List.Pairwise (fun a b => a.order ≤ b.order) res.queries ∧
      ∃ arr qs, p.queries = some arr ∧ buildQueries arr = .ok qs ∧
        res.queries.Perm qs) ∧
    (∃ res, parse_decomposer_response
        ⟨some "complex", some "r",
          some [⟨some "a", some "SELECT 2", some 2, some false⟩,
            ⟨some "b", some "SELECT 0", some 0, some false⟩,
            ⟨some "c", some "SELECT 1", some 1, some false⟩]⟩ = .ok res ∧
      res.queries.map (fun q => q.order) = [0, 1, 2]) := by
  constructor
  · intro p res h
    cases hq : p.queries with
    | none =>
      simp only [parse_decomposer_response, hq] at h
      exact absurd h (by simp)
    | some arr =>
      cases hbq : buildQueries arr with
      | error e =>
        simp only [parse_decomposer_response, hq, hbq] at h
        exact absurd h (by simp)
      | ok qs =>
        simp only [parse_decomposer_response, hq, hbq] at h
        by_cases hemp :
            (List.insertionSort (fun a b => a.order ≤ b.order) qs).isEmpty = true
        · rw [if_pos hemp] at h
          exact absurd h (by simp)
        · rw [if_neg hemp] at h
          have hres := (Except.ok.inj h).symm
          have hqueries : res.queries =
              List.insertionSort (fun a b => a.order ≤ b.order) qs := by
            rw [hres]
          refine ⟨?_, arr, qs, rfl, hbq, ?_⟩
          · rw [hqueries]
            haveI : IsTotal SubQuery (fun a b => a.order ≤ b.order) :=
              ⟨fun a b => Nat.le_total a.order b.order⟩
            haveI : IsTrans SubQuery (fun a b => a.order ≤ b.order) :=
              ⟨fun a b c hab hbc => Nat.le_trans hab hbc⟩
            exact List.sorted_insertionSort (fun a b => a.order ≤ b.order) qs
          · rw [hqueries]
            exact List.perm_insertionSort (fun a b => a.order ≤ b.order) qs
  · refine ⟨⟨.Complex, [⟨"b", "SELECT 0", 0, false⟩, ⟨"c", "SELECT 1", 1, false⟩,
      ⟨"a", "SELECT 2", 2, false⟩], "r"⟩, ?_, ?_⟩
    · rfl
    · rfl

/-- Witness for C8 applying its universal part at the concrete
out-of-order response. -/
theorem decomposer_queries_sorted_witness :
    List.Pairwise (fun a b => a.order ≤ b.order)
      (⟨QueryComplexity.Complex, [⟨"b", "SELECT 0", 0, false⟩,
        ⟨"c", "SELECT 1", 1, false⟩, ⟨"a", "SELECT 2", 2, false⟩],
        "r"⟩ : DecomposerResult).queries ∧
    ∃ arr qs,
      (⟨some "complex", some "r",
        some [⟨some "a", some "SELECT 2", some 2, some false⟩,
          ⟨some "b", some "SELECT 0", some 0, some false⟩,
          ⟨some "c", some "SELECT 1", some 1, some false⟩]⟩ :
            ParsedDecomposer).queries = some arr ∧
      buildQueries arr = .ok qs ∧
      (⟨QueryComplexity.Complex, [⟨"b", "SELECT 0", 0, false⟩,
        ⟨"c", "SELECT 1", 1, false⟩, ⟨"a", "SELECT 2", 2, false⟩],
        "r"⟩ : DecomposerResult).queries.Perm qs :=
  decomposer_queries_sorted.1
    ⟨some "complex", some "r",
      some [⟨some "a", some "SELECT 2", some 2, some false⟩,
        ⟨some "b", some "SELECT 0", some 0, some false⟩,
        ⟨some "c", some "SELECT 1", some 1, some false⟩]⟩
    ⟨QueryComplexity.Complex, [⟨"b", "SELECT 0", 0, false⟩,
      ⟨"c", "SELECT 1", 1, false⟩, ⟨"a", "SELECT 2", 2, false⟩], "r"⟩
    (by rfl)

/-- Byte length of a string body under UTF-8 encoding (Rust `str::len`). -/
def utf8Len (l : List Char) : Nat := l.foldl (fun n c => n + c.utf8Size) 0

/-- Rust byte slicing `&s[..n]`: the characters spanning the first `n`
bytes when `n` lands on a character boundary inside the string, and
`none` (a Rust panic) otherwise. -/
def utf8ByteTake : List Char → Nat → Option (List Char)
  | _, 0 => some []
  | [], _ + 1 => none
  | c :: cs, n + 1 =>
    if c.utf8Size ≤ n + 1 then
      (utf8ByteTake cs (n + 1 - c.utf8Size)).map (fun l => c :: l)
    else none

/-- The truncation branch of `format_conversation_history`
(`decomposer.rs` lines 165 to 169): `msg.content.len()` is the UTF-8 byte
length and `&msg.content[..200]` is a byte slice, so the result is `none`
(a panic) when byte 200 falls inside a multi-byte character. -/
def truncateContent (content : String) : Option String :=
  if 200 < utf8Len content.data then
    (utf8ByteTake content.data 200).map (fun l => String.mk l ++ "...")
  else some content

/-- One iteration of the history loop in `format_conversation_history`:
`System` and `Tool` messages are skipped (the `continue` arm of the
`match`), a `User` or `Assistant` message renders as `"Role: content\n"`
with long contents truncated; the inner `none` marks a skipped message,
the outer `none` propagates the byte-slice panic. -/
def histLine (m : Msg) : Option (Option String) :=
  match m.role with
  | .User => (truncateContent m.content).map (fun c => some ("User: " ++ c ++ "\n"))
  | .Assistant =>
    (truncateContent m.content).map (fun c => some ("Assistant: " ++ c ++ "\n"))
  | _ => some none

/-- The `for msg in recent_history` loop: concatenate the rendered lines,
propagating a panic from any iteration. -/
def histLoop : List Msg → Option String
  | [] => some ""
  | m :: ms =>
    match histLine m with
    | none => none
    | some none => histLoop ms
    | some (some line) => (histLoop ms).map (fun rest => line ++ rest)

/-- Model of `DecomposerAgent::format_conversation_history`
(`decomposer.rs` lines 142 to 175): empty history yields the empty
string; otherwise the header, the rendered last ten messages
(`iter().rev().take(10)` then reversed back, i.e. the last ten in
original order), and a trailing newline.  The result is an `Option`
because the byte-slice truncation can panic. -/
def format_conversation_history (history : List Msg) : Option String :=
  if history.isEmpty then some ""
  else
    (histLoop ((history.reverse.take 10).reverse)).map (fun body =>
      "\nCONVERSATION HISTORY:\n" ++ body ++ "\n")

set_option maxRecDepth 16000 in
/-- C10: the formatting function is NOT total over non-ASCII contents.  A
single user message of 67 euro signs is 201 UTF-8 bytes, so the code
takes the truncation branch and byte-slices at 200, which falls inside
the 67th three-byte character: `&content[..200]` panics, modelled here as
`none`.  Truncation is also by bytes, not characters, contradicting the
claimed 200-character truncation.  The remaining conjuncts check the
behaviour the claim gets right on ASCII data: a 250-character ASCII
message is shortened to its first 200 characters plus `"..."`, an empty
history renders as the empty string, and of a 12-message history exactly
the last ten are included. -/
theorem format_history_panics_on_nonascii_bug :
    format_conversation_history
      [⟨.User, String.mk (List.replicate 67 '€'), none, none⟩] = none ∧
    format_conversation_history
      [⟨.User, String.mk (List.replicate 250 'a'), none, none⟩] =
      some ("\nCONVERSATION HISTORY:\nUser: " ++
        String.mk (List.replicate 200 'a') ++ "...\n\n") ∧
    format_conversation_history [] = some "" ∧
    format_conversation_history
      (List.replicate 12 (⟨.User, "q", none, none⟩ : Msg)) =
      some ("\nCONVERSATION HISTORY:\n" ++
        String.join (List.replicate 10 "User: q\n") ++ "\n") := by
  refine ⟨?_, ?_, ?_, ?_⟩ <;> decide

end DataSpeak
